import Mathlib

/-!
Verification development for the AiTrade execution engine.

Shallow embedding of the core components described in the specification:
the durable trade ledger (trade_ledger.py), the atomic JSON state store
(state_store.py), the execution router with its daily-drawdown guard
(execution_router.py), the strategy runner (async_strategy_runner.py:
kill switch, risk sizing, dynamic trailing, protective exits, the
MAX_OPEN_POSITIONS gate in run_strategy) and the Bitget adapter poll loop
wait_for_order_final (brokers/bitget_client.py).

Conventions: Python floats are modelled as exact rationals, Python dicts
holding JSON data as association lists with first-match lookup shadowing,
fallible calls as Option / Except, and broker or clock inputs as explicit
oracle parameters.
-/

/-- JSON values as producible by the Python json module, with numbers
restricted to integers (floating point formatting is outside the model). -/
inductive Json : Type where
  | null : Json
  | bool : Bool → Json
  | num  : Int → Json
  | str  : String → Json
  | arr  : List Json → Json
  | obj  : List (String × Json) → Json

/-- Lookup in an association list, first match wins (models dict lookup,
where later dictSet entries are consed on the front and shadow old ones). -/
def dictGet (k : String) : List (String × Json) → Option Json
  | [] => none
  | (k2, v) :: t => if k2 = k then some v else dictGet k t

/-- Set a key (models Python dict item assignment); the new binding is
consed on the front and shadows any previous binding of the same key. -/
def dictSet (k : String) (v : Json) (d : List (String × Json)) : List (String × Json) :=
  (k, v) :: d

/-- Merge two payload dicts, new keys overriding old: models
merged = dict(prev); merged.update(new). -/
def dictMerge (prev new : List (String × Json)) : List (String × Json) :=
  new ++ prev

/-- ASCII lowercasing (models str.lower on the ASCII statuses and sides
the engine uses), written over the character list so that concrete
instances reduce by evaluation. -/
def toLowerStr (s : String) : String := String.mk (s.toList.map Char.toLower)

/-- Strip leading and trailing whitespace (models str.strip on the ASCII
mode strings the engine uses). -/
def trimStr (s : String) : String :=
  String.mk (((s.toList.dropWhile Char.isWhitespace).reverse.dropWhile
    Char.isWhitespace).reverse)

/-! ## Trade ledger (trade_ledger.py)

The orders table keyed by client_id.  A row stores the mutable columns
touched by reserve_order / mark_order_submitted / mark_order_final; the
immutable identity columns (broker, symbol, role, side) are kept as well. -/

structure OrderRow : Type where
  broker : String
  symbol : String
  role : String
  side : String
  status : String
  order_id : Option String
  payload : List (String × Json)

/-- Orders table: client_id to row (SQLite primary key lookup). -/
def Orders : Type := String → Option OrderRow

/-- Negative terminal statuses eligible for re-reservation, as listed in
reserve_order: failed / canceled / cancelled / rejected. -/
def negativeStatuses : List String := ["failed", "canceled", "cancelled", "rejected"]

/-- Reads int(prev_payload.get("_retry_n", 0)): the stored retry counter,
0 when absent or not a number. -/
def getRetryN (p : List (String × Json)) : Int :=
  match dictGet "_retry_n" p with
  | some (Json.num n) => n
  | _ => 0

/-- Models TradeLedger.reserve_order.  Returns the bool result together
with the updated orders table.  On absent row: insert with status
reserved.  On a row whose lowercased status is negative-terminal: merge
payload (new over old), bump _retry_n, record _retry_at and _prev_status,
clear order_id, set status reserved, return true.  Otherwise return false
and leave the table unchanged. -/
def reserve_order (tbl : Orders) (client_id broker symbol role side : String)
    (payload : List (String × Json)) (now : String) : Bool × Orders :=
  match tbl client_id with
  | none =>
      (true, fun c => if c = client_id then
        some { broker := broker, symbol := symbol, role := role, side := side,
               status := "reserved", order_id := none, payload := payload }
        else tbl c)
  | some row =>
      if toLowerStr row.status ∈ negativeStatuses then
        let retry_n := getRetryN row.payload + 1
        let merged := dictMerge row.payload payload
        let merged := dictSet "_retry_n" (Json.num retry_n) merged
        let merged := dictSet "_retry_at" (Json.str now) merged
        let merged := dictSet "_prev_status" (Json.str (toLowerStr row.status)) merged
        (true, fun c => if c = client_id then
          some { row with status := "reserved", order_id := none, payload := merged }
          else tbl c)
      else
        (false, tbl)

/-- Models TradeLedger.mark_order_submitted: on a missing row the Python
code raises KeyError and leaves the table unchanged; otherwise the payload
is merged (new over old, plus _event), status becomes submitted and the
order_id column is set. -/
def mark_order_submitted (tbl : Orders) (client_id order_id : String)
    (payload : List (String × Json)) (now : String) : Orders :=
  match tbl client_id with
  | none => tbl
  | some row =>
      let merged := dictSet "_event" (Json.str "submitted")
        (dictSet "_updated_at" (Json.str now) (dictMerge row.payload payload))
      fun c => if c = client_id then
        some { row with status := "submitted", order_id := some order_id, payload := merged }
        else tbl c

/-- Models TradeLedger.mark_order_final: on a missing row the Python code
raises KeyError and leaves the table unchanged; otherwise the payload is
merged and the status column is set to the given string. -/
def mark_order_final (tbl : Orders) (client_id status : String)
    (payload : List (String × Json)) (now : String) : Orders :=
  match tbl client_id with
  | none => tbl
  | some row =>
      let merged := dictSet "_event" (Json.str ("final:" ++ status))
        (dictSet "_updated_at" (Json.str now) (dictMerge row.payload payload))
      fun c => if c = client_id then
        some { row with status := status, payload := merged }
        else tbl c

/-- Ledger order-table operations, tagged with the client_id they target. -/
inductive LedgerOp : Type where
  | reserve (client_id broker symbol role side : String)
      (payload : List (String × Json)) (now : String) : LedgerOp
  | markSubmitted (client_id order_id : String)
      (payload : List (String × Json)) (now : String) : LedgerOp
  | markFinal (client_id status : String)
      (payload : List (String × Json)) (now : String) : LedgerOp

/-- Apply one ledger operation to the orders table. -/
def applyLedgerOp (tbl : Orders) : LedgerOp → Orders
  | LedgerOp.reserve c b s r sd p n => (reserve_order tbl c b s r sd p n).2
  | LedgerOp.markSubmitted c o p n => mark_order_submitted tbl c o p n
  | LedgerOp.markFinal c st p n => mark_order_final tbl c st p n

/-- Apply a sequence of ledger operations from the left. -/
def applyLedgerOps (tbl : Orders) (ops : List LedgerOp) : Orders :=
  ops.foldl applyLedgerOp tbl

/-- An operation performs a terminal negative transition on client c when
it is a markFinal on c whose stored status lowercases into the
negative-terminal set. -/
def isNegativeTransition (c : String) : LedgerOp → Prop
  | LedgerOp.markFinal c2 st _ _ => c2 = c ∧ toLowerStr st ∈ negativeStatuses
  | _ => False

instance (c : String) (op : LedgerOp) : Decidable (isNegativeTransition c op) := by
  cases op <;> simp [isNegativeTransition] <;> infer_instance

/-! ## Execution router (execution_router.py)

The daily-drawdown guard and the head of execute_order.  The router state
is reduced to the data the guard reads: the execution mode, the
MAX_DAILY_DRAWDOWN setting, the global anchor equity, the per-broker
anchor equities, and the per-broker current equities (the global current
equity is their sum, as produced by get_global_account_state). -/

structure GuardState : Type where
  mode : String
  max_daily_drawdown : ℚ
  anchor_equity : ℚ
  anchor_by_broker : List (String × ℚ)
  details : List (String × ℚ)
deriving DecidableEq, Repr

/-- Per-broker loop of _check_daily_drawdown_guard: raises on the first
broker with positive anchor, positive current equity and drawdown at or
above the limit. -/
def ddBrokerLoop (max_dd : ℚ) (anchors : List (String × ℚ)) :
    List (String × ℚ) → Option String
  | [] => none
  | (name, cur) :: t =>
      let anchor_b := (List.lookup name anchors).getD 0
      if anchor_b > 0 ∧ cur > 0 ∧ (anchor_b - cur) / anchor_b ≥ max_dd then
        some ("MAX_DAILY_DRAWDOWN reached for " ++ name)
      else ddBrokerLoop max_dd anchors t

/-- Models ExecutionRouter._check_daily_drawdown_guard; returns the raised
error message, or none when the order may proceed. -/
def check_daily_drawdown_guard (st : GuardState) : Option String :=
  if st.mode ≠ "live" then none
  else if st.max_daily_drawdown ≤ 0 then none
  else if st.anchor_equity ≤ 0 then none
  else
    match ddBrokerLoop st.max_daily_drawdown st.anchor_by_broker st.details with
    | some e => some e
    | none =>
        let equity := (st.details.map Prod.snd).sum
        let dd := (st.anchor_equity - equity) / st.anchor_equity
        if dd ≥ st.max_daily_drawdown then some "MAX_DAILY_DRAWDOWN reached"
        else none

/-- Error kinds raised by ExecutionRouter.execute_order before dispatch. -/
inductive RouterError : Type where
  | valueError (msg : String) : RouterError
  | runtimeError (msg : String) : RouterError
deriving DecidableEq, Repr

/-- The OrderRequest handed to broker.place_order when execute_order
proceeds past its checks. -/
structure OrderRequest : Type where
  symbol : String
  side : String
  quantity : ℚ
  order_type : String
  client_id : Option String
deriving DecidableEq, Repr

/-- Decidable equality of router outcomes, for concrete evaluations. -/
instance (priority := low) {e a : Type} [DecidableEq e] [DecidableEq a] :
    DecidableEq (Except e a) := fun x y =>
  match x, y with
  | Except.ok v, Except.ok w =>
      if h : v = w then Decidable.isTrue (by rw [h]) else
        Decidable.isFalse (by intro hc; cases hc; exact h rfl)
  | Except.error v, Except.error w =>
      if h : v = w then Decidable.isTrue (by rw [h]) else
        Decidable.isFalse (by intro hc; cases hc; exact h rfl)
  | Except.ok _, Except.error _ => Decidable.isFalse (by intro hc; cases hc)
  | Except.error _, Except.ok _ => Decidable.isFalse (by intro hc; cases hc)

/-- Models the head of ExecutionRouter.execute_order: in LIVE mode a buy
is first passed through the daily-drawdown guard, then the quantity is
validated, then the order is dispatched to the broker resolved for the
symbol.  The ok value records the dispatched request. -/
def execute_order (st : GuardState) (symbol side : String) (quantity : ℚ)
    (order_type : String) (client_id : Option String) : Except RouterError OrderRequest :=
  match (if st.mode = "live" ∧ toLowerStr side ∈ ["buy"]
          then check_daily_drawdown_guard st else none) with
  | some e => Except.error (RouterError.runtimeError e)
  | none =>
      if quantity ≤ 0 then
        Except.error (RouterError.valueError "ExecutionRouter.execute_order: quantity must be > 0")
      else
        Except.ok { symbol := symbol, side := side, quantity := quantity,
                    order_type := order_type, client_id := client_id }

/-- Modelled from the spec wording of the drawdown rule, for comparison
with the code: the guard refuses exactly when (anchor - current) / anchor
is at or above MAX_DAILY_DRAWDOWN for some broker or for the global
aggregate (given an enabled guard and a positive anchor). -/
def spec_drawdown_refusal (st : GuardState) : Prop :=
  st.max_daily_drawdown > 0 ∧ st.anchor_equity > 0 ∧
    ((∃ p ∈ st.details,
        let anchor_b := (List.lookup p.1 st.anchor_by_broker).getD 0
        anchor_b > 0 ∧ (anchor_b - p.2) / anchor_b ≥ st.max_daily_drawdown) ∨
      (st.anchor_equity - (st.details.map Prod.snd).sum) / st.anchor_equity
        ≥ st.max_daily_drawdown)

instance (st : GuardState) : Decidable (spec_drawdown_refusal st) := by
  unfold spec_drawdown_refusal
  infer_instance

/-! ## Strategy runner: kill switch (async_strategy_runner.py)

The process-local boolean _kill_switch_active is written exactly twice in
the source: set to False in the constructor and to True at the start of
_handle_kill_switch; no other statement assigns it.  Runner events are
therefore modelled by whether they execute _handle_kill_switch. -/

inductive RunnerEvent : Type where
  | handleKillSwitch : RunnerEvent
  | otherOperation : RunnerEvent
deriving DecidableEq, Repr

/-- Effect of one runner event on the _kill_switch_active flag. -/
def killStep (flag : Bool) : RunnerEvent → Bool
  | RunnerEvent.handleKillSwitch => true
  | RunnerEvent.otherOperation => flag

/-- Models AsyncStrategyRunner._router_execute_order: when the kill-switch
flag is set it raises before touching the router; otherwise the call is
forwarded to router.execute_order with these arguments (the ok value
records the forwarded call). -/
def router_execute_order (kill_switch_active : Bool) (symbol side : String)
    (quantity : ℚ) (order_type : String) (client_id : Option String) :
    Except String OrderRequest :=
  if kill_switch_active then Except.error "KILL-SWITCH active: new orders blocked"
  else Except.ok { symbol := symbol, side := side, quantity := quantity,
                   order_type := order_type, client_id := client_id }

/-! ## Strategy runner: risk per trade -/

/-- Models AsyncStrategyRunner._compute_risk_per_trade.  The confidence is
optional because the Python code special-cases confidence None. -/
def compute_risk_per_trade (confidence : Option ℚ)
    (base_risk max_risk threshold : ℚ) : ℚ :=
  match confidence with
  | none => base_risk
  | some c =>
      let scale := (c - threshold) / (1 - threshold + 1 / 1000000)
      let scale := max 0 (min 1 scale)
      let risk := base_risk + (max_risk - base_risk) * scale
      max base_risk (min max_risk risk)

/-- Modelled from the spec wording of the risk rule, for comparison with
the code: r = clip(base + (max - base) * (c - thr) / (1 - thr), base, max). -/
def spec_risk_formula (c base_risk max_risk threshold : ℚ) : ℚ :=
  max base_risk (min max_risk
    (base_risk + (max_risk - base_risk) * ((c - threshold) / (1 - threshold))))

/-- The risk formula the code actually implements, written in the clipped
form of the spec sentence: the denominator carries the 1e-6 epsilon and
the interpolation factor is clamped to [0, 1]. -/
def amended_risk_formula (c base_risk max_risk threshold : ℚ) : ℚ :=
  max base_risk (min max_risk
    (base_risk + (max_risk - base_risk) *
      (max 0 (min 1 ((c - threshold) / (1 - threshold + 1 / 1000000))))))

/-! ## Strategy runner: dynamic trailing (_update_dynamic_trailing)

Protection record fields read or written by the trailing controller.  As
in the Python code (helper _f), a missing or malformed numeric field is
the value 0. -/

structure Prot : Type where
  mode : String
  trade_id : String
  sl : ℚ
  tp : ℚ
  atr : ℚ
  qty : ℚ
  entry_price : ℚ
  max_price : ℚ
  min_price : ℚ
  trail_last_ts : ℚ
  trail_count : ℤ
deriving DecidableEq, Repr

/-- Config knobs of the dynamic trailing controller with their source
defaults: DYNAMIC_TRAILING_ENABLED true, BREAKEVEN_ATR 1.0,
BREAKEVEN_BUFFER_ATR 0.05, TRIGGER_ATR 2.5, OFFSET_ATR 0.8, MIN_STEP_ATR
0.10, COOLDOWN_S 5.0, MIN_GAP_PCT 0.001. -/
structure TrailCfg : Type where
  enabled : Bool
  breakeven_atr : ℚ
  breakeven_buffer_atr : ℚ
  trigger_dist_atr : ℚ
  trail_offset_atr : ℚ
  min_step_atr : ℚ
  cooldown_s : ℚ
  min_gap_pct : ℚ
deriving DecidableEq, Repr

/-- Minimal gap kept between the stop and the current price:
max(cp * min_gap_pct, atr * 0.05). -/
def trailMinGap (cfg : TrailCfg) (cp atr : ℚ) : ℚ :=
  max (cp * cfg.min_gap_pct) (atr * (1 / 20))

/-- Watermark update: for a long the running maximum of price is stored in
max_price, for a short the running minimum in min_price (a non-positive
stored value counts as absent and is seeded with the current price). -/
def trailWatermark (cp : ℚ) (prot : Prot) : Prot :=
  if prot.qty > 0 then
    let prev_max := if prot.max_price ≤ 0 then cp else prot.max_price
    { prot with max_price := max prev_max cp }
  else
    let prev_min := if prot.min_price ≤ 0 then cp else prot.min_price
    { prot with min_price := min prev_min cp }

/-- Break-even candidate stage (stage 1 of _update_dynamic_trailing). -/
def breakevenCandidate (cfg : TrailCfg) (cp min_gap entry sl_price atr qty : ℚ) :
    Option ℚ :=
  if entry > 0 then
    let profit := if qty > 0 then cp - entry else entry - cp
    let profit_atr := if atr > 0 then profit / atr else 0
    if profit_atr ≥ cfg.breakeven_atr then
      if qty > 0 then
        let be_sl := entry + atr * cfg.breakeven_buffer_atr
        let be_sl := min be_sl (cp - min_gap)
        if be_sl > sl_price then some be_sl else none
      else
        let be_sl := entry - atr * cfg.breakeven_buffer_atr
        let be_sl := max be_sl (cp + min_gap)
        if be_sl < sl_price then some be_sl else none
    else none
  else none

/-- Squeeze-trail candidate stage (stage 2), merged into the break-even
candidate exactly as the source does, including the redundant second
clip-and-merge pass. -/
def trailBlock (cfg : TrailCfg) (cp min_gap watermark entry sl_price atr qty tp : ℚ)
    (is_whale_active : Bool) (cand : Option ℚ) : Option ℚ :=
  if |cp - sl_price| > atr * cfg.trigger_dist_atr then
    let base_offset := atr * cfg.trail_offset_atr
    let base_offset := if is_whale_active then atr * (9 / 2) else base_offset
    let dynamic_offset :=
      if tp > 0 ∧ ¬is_whale_active then
        let dist_remain := if qty > 0 then tp - watermark else watermark - tp
        let total_run := if qty > 0 then tp - entry else entry - tp
        let squeeze := if total_run ≤ 0 then 1 else dist_remain / total_run
        let squeeze := max 0 (min 1 squeeze)
        max (base_offset * squeeze) (base_offset * (1 / 10))
      else base_offset
    let trail_sl :=
      if qty > 0 then min (watermark - dynamic_offset) (cp - min_gap)
      else max (watermark + dynamic_offset) (cp + min_gap)
    let cand1 :=
      match cand with
      | none => trail_sl
      | some c => if qty > 0 then max c trail_sl else min c trail_sl
    let trail_sl2 :=
      if qty > 0 then min trail_sl (cp - min_gap) else max trail_sl (cp + min_gap)
    some (if qty > 0 then max cand1 trail_sl2 else min cand1 trail_sl2)
  else cand

/-- Mode string normalisation at the head of _update_dynamic_trailing:
str(prot.get("mode", "synthetic")) or "synthetic", lowered and stripped. -/
def trailMode (prot : Prot) : String :=
  trimStr (toLowerStr (if prot.mode = "" then "synthetic" else prot.mode))

/-- Watermark and cached-entry record updates performed by
_update_dynamic_trailing before computing candidates. -/
def trailProt2 (cp : ℚ) (prot : Prot) (ledger_entry_price : ℚ) : Prot :=
  let prot1 := trailWatermark cp prot
  let entry := if prot1.entry_price ≤ 0 then ledger_entry_price else prot1.entry_price
  if entry > 0 then { prot1 with entry_price := entry } else prot1

/-- Candidate stop-loss produced by the break-even and squeeze-trail
stages of _update_dynamic_trailing. -/
def trailCand (cfg : TrailCfg) (cp : ℚ) (prot : Prot) (is_whale_active : Bool)
    (ledger_entry_price : ℚ) : Option ℚ :=
  let min_gap := trailMinGap cfg cp prot.atr
  let prot1 := trailWatermark cp prot
  let watermark := if prot.qty > 0 then prot1.max_price else prot1.min_price
  let entry := if prot1.entry_price ≤ 0 then ledger_entry_price else prot1.entry_price
  let cand := breakevenCandidate cfg cp min_gap entry prot.sl prot.atr prot.qty
  trailBlock cfg cp min_gap watermark entry prot.sl prot.atr prot.qty prot.tp
    is_whale_active cand

/-- Final stage of _update_dynamic_trailing: clamp the candidate, require
a strict improvement beyond min_step, and apply it according to the mode.
The LIVE native branch performs broker I/O (cancel plus replace of the
plan order) and is modelled as leaving the local record unchanged with
result False; the theorems below only concern synthetic-mode records,
which never reach that branch. -/
def trailApply (cfg : TrailCfg) (mode mode_value : String)
    (cp min_gap sl_price atr qty now_ts : ℚ) (prot2 : Prot) (cand : Option ℚ) :
    Prot × Bool :=
  match cand with
  | none => (prot2, false)
  | some c =>
      let new_sl := if qty > 0 then min c (cp - min_gap) else max c (cp + min_gap)
      let min_step := atr * cfg.min_step_atr
      if (if qty > 0 then new_sl ≤ sl_price + min_step
          else new_sl ≥ sl_price - min_step) then (prot2, false)
      else if mode = "synthetic" then
        ({ prot2 with sl := new_sl, trail_last_ts := now_ts,
                      trail_count := prot2.trail_count + 1 }, true)
      else if mode_value ≠ "live" then
        ({ prot2 with sl := new_sl, trail_last_ts := now_ts,
                      trail_count := prot2.trail_count + 1 }, true)
      else (prot2, false)

/-- Models AsyncStrategyRunner._update_dynamic_trailing.  Inputs beyond
the protection record: the kill-switch flag, the EXECUTION_MODE string,
the polled current price, the whale flag, the wall clock, and the entry
price resolved from the ledger fallback chain (0 when unknown).  Returns
the updated record and the bool the Python function returns. -/
def update_dynamic_trailing (cfg : TrailCfg) (kill_switch_active : Bool)
    (mode_value : String) (current_price : ℚ) (prot : Prot)
    (is_whale_active : Bool) (now_ts : ℚ) (ledger_entry_price : ℚ) : Prot × Bool :=
  if kill_switch_active then (prot, false)
  else if ¬(trailMode prot = "synthetic" ∨ trailMode prot = "native") then (prot, false)
  else if trimStr prot.trade_id = "" then (prot, false)
  else if current_price ≤ 0 then (prot, false)
  else if prot.sl ≤ 0 ∨ prot.atr ≤ 0 ∨ prot.qty ≤ 0 then (prot, false)
  else if ¬cfg.enabled then (prot, false)
  else if cfg.cooldown_s > 0 ∧ prot.trail_last_ts > 0 ∧
      now_ts - prot.trail_last_ts < cfg.cooldown_s then (prot, false)
  else
    trailApply cfg (trailMode prot) mode_value current_price
      (trailMinGap cfg current_price prot.atr) prot.sl prot.atr prot.qty now_ts
      (trailProt2 current_price prot ledger_entry_price)
      (trailCand cfg current_price prot is_whale_active ledger_entry_price)

/-! ## Strategy runner: synthetic protective exits (_check_protective_exits)

Per-symbol synthetic-mode slice of _check_protective_exits (the code after
the pending_entry and native branches), for one protection entry with the
venue position quantity and polled current price as inputs.  Ledger
results and the router call are oracle inputs: reserve_* give the bool
returned by ledger.reserve_order, submit_* give the OrderResult returned
by _router_execute_order, none meaning the call raised. -/

structure SynthProt : Type where
  sl : ℚ
  tp : ℚ
  qty : ℚ
  sl_client_id : Option String
  tp_client_id : Option String
  trade_id : Option String
  signal_id : String
  broker : String
deriving DecidableEq, Repr

structure BrokerOrderResult : Type where
  order_id : String
  status : String
  price : ℚ
deriving DecidableEq, Repr

/-- Observable effects of one synthetic-exit check for one symbol. -/
structure ExitEffects : Type where
  removed : Bool
  closed : Option (ℚ × String)
  reservations : List (String × String)
  orders : List OrderRequest
  submissions : List (String × String)
  finals : List (String × String)
deriving DecidableEq, Repr

/-- Effects of an iteration that does nothing. -/
def noExitEffects : ExitEffects :=
  { removed := false, closed := none, reservations := [], orders := [],
    submissions := [], finals := [] }

/-- Terminal statuses recognised by the exit path of
_check_protective_exits, before canceled-spelling normalisation. -/
def exitTerminalStatuses : List String :=
  ["filled", "canceled", "cancelled", "rejected", "failed"]

/-- Reserve-submit-close tail of a triggered synthetic exit, for the
resolved reason and client id: the reserve under the role-specific
client_id, the market submit through _router_execute_order, and the
close-on-filled bookkeeping. -/
def exitOutcome (prot : SynthProt) (qty_pos current_price : ℚ)
    (time_reservations : List (String × String)) (reason exit_cid : String)
    (reserve_ok : Bool) (submit : Option BrokerOrderResult) : ExitEffects :=
  let qty := if prot.qty = 0 then qty_pos else prot.qty
  let reservations := time_reservations ++ [(exit_cid, reason)]
  if ¬reserve_ok then { noExitEffects with reservations := reservations }
  else
    match submit with
    | none =>
        { noExitEffects with
          reservations := reservations,
          orders := [{ symbol := "", side := "sell", quantity := qty,
                       order_type := "market", client_id := some exit_cid }],
          finals := [(exit_cid, "failed")] }
    | some res =>
        let st := toLowerStr res.status
        let px := if res.price = 0 then current_price else res.price
        let finals :=
          if st ∈ exitTerminalStatuses then
            [(exit_cid, if st = "canceled" ∨ st = "cancelled" then "canceled" else st)]
          else []
        if st = "filled" then
          { removed := true,
            closed := prot.trade_id.map (fun _ => (px, reason)),
            reservations := reservations,
            orders := [{ symbol := "", side := "sell", quantity := qty,
                         order_type := "market", client_id := some exit_cid }],
            submissions := [(exit_cid, res.order_id)],
            finals := finals }
        else
          { removed := false,
            closed := none,
            reservations := reservations,
            orders := [{ symbol := "", side := "sell", quantity := qty,
                         order_type := "market", client_id := some exit_cid }],
            submissions := [(exit_cid, res.order_id)],
            finals := finals }

/-- SL/TP trigger test of the synthetic branch: the hit rule (SL first),
then the exit tail under the role-specific client_id. -/
def exitHitStep (prot : SynthProt) (qty_pos current_price : ℚ)
    (time_reservations : List (String × String)) (reserve_ok : Bool)
    (submit : Option BrokerOrderResult) (mk_cid : String → String) : ExitEffects :=
  let sl := prot.sl
  let tp := prot.tp
  let hit_sl := sl > 0 ∧ current_price ≤ sl
  let hit_tp := tp > 0 ∧ current_price ≥ tp
  if ¬(hit_sl ∨ hit_tp) then { noExitEffects with reservations := time_reservations }
  else
    let reason := if hit_sl then "sl" else "tp"
    let exit_cid := (if hit_sl then prot.sl_client_id else prot.tp_client_id).getD
      (mk_cid reason)
    exitOutcome prot qty_pos current_price time_reservations reason exit_cid
      reserve_ok submit

/-- Models the synthetic-mode tail of _check_protective_exits for one
symbol: position gone check, TIME EXIT patch, then the SL/TP trigger
rule (exitHitStep).  The created_at age test of the time exit is given
as the pre-computed inputs created_at_present, age_seconds and
max_seconds; mk_cid is the _make_client_id oracle keyed by role.
Ledger results and the router call are oracle inputs: reserve_* give the
bool returned by ledger.reserve_order, submit_* give the OrderResult
returned by _router_execute_order, none meaning the call raised. -/
def check_synthetic_exit (prot : SynthProt) (qty_pos current_price : ℚ)
    (created_at_present : Bool) (age_seconds max_seconds : ℚ)
    (reserve_time_ok : Bool) (submit_time : Option BrokerOrderResult)
    (reserve_ok : Bool) (submit : Option BrokerOrderResult)
    (mk_cid : String → String) : ExitEffects :=
  let qty := if prot.qty = 0 then qty_pos else prot.qty
  if qty_pos ≤ 0 then { noExitEffects with removed := true }
  else
    let time_fired := created_at_present ∧ age_seconds > max_seconds
    let time_cid := mk_cid "exit_time"
    let timeRes : Option ExitEffects :=
      if time_fired then
        if reserve_time_ok then
          match submit_time with
          | some _ =>
              some { noExitEffects with
                removed := true,
                closed := prot.trade_id.map (fun _ => (current_price, "time_exit")),
                reservations := [(time_cid, "time_exit")],
                orders := [{ symbol := "", side := "sell", quantity := qty,
                             order_type := "market", client_id := some time_cid }] }
          | none => none
        else none
      else none
    match timeRes with
    | some e => e
    | none =>
        let time_reservations :=
          if time_fired ∧ reserve_time_ok then [(time_cid, "time_exit")] else []
        exitHitStep prot qty_pos current_price time_reservations reserve_ok submit mk_cid

/-! ## Strategy runner: MAX_OPEN_POSITIONS gate (run_strategy)

The per-cycle loop over signal symbols.  A SignalItem carries what the
loop reads for one symbol: the fingerprint, the probabilities, the cached
venue position quantity, and the oracle trade_opens that models whether
ledger.has_open_trade reports an open trade for the symbol right after
execute_trade(buy) returned (the code then counts the slot as taken). -/

structure SignalItem : Type where
  symbol : String
  signal_id : String
  p_long : ℚ
  p_short : ℚ
  pos_qty : ℚ
  trade_opens : Bool
deriving DecidableEq, Repr

/-- Events emitted by one cycle; a buy records the slot count the gate
compared against MAX_OPEN_POSITIONS at the moment of the call. -/
inductive CycleEvent : Type where
  | buy (symbol : String) (count_at : ℕ) : CycleEvent
  | skipBuy (symbol : String) : CycleEvent
  | sell (symbol : String) : CycleEvent
deriving DecidableEq, Repr

/-- Number of open slots: len of the set of non-empty symbols, exactly the
Python expression len(set of s in open_symbols if s). -/
def openCount (open_symbols : List String) : ℕ :=
  (open_symbols.filter (fun s => s ≠ "")).toFinset.card

/-- Loop state: the open_symbols accumulator and the last_seen map. -/
structure CycleState : Type where
  open_symbols : List String
  last_seen : String → Option String

/-- One iteration of the run_strategy symbol loop. -/
def run_strategy_step (threshold : ℚ) (max_pos : ℤ) (st : CycleState)
    (it : SignalItem) : CycleState × List CycleEvent :=
  if st.last_seen it.symbol = some it.signal_id then (st, [])
  else
    let buyPart : List String × List CycleEvent :=
      if it.p_long > threshold ∧ it.pos_qty ≤ 0 then
        if max_pos > 0 ∧ (openCount st.open_symbols : ℤ) ≥ max_pos then
          (st.open_symbols, [CycleEvent.skipBuy it.symbol])
        else
          (if it.trade_opens then st.open_symbols ++ [it.symbol] else st.open_symbols,
            [CycleEvent.buy it.symbol (openCount st.open_symbols)])
      else (st.open_symbols, [])
    let sellPart : List CycleEvent :=
      if it.p_short > threshold ∧ it.pos_qty > 0 then [CycleEvent.sell it.symbol] else []
    ({ open_symbols := buyPart.1,
       last_seen := fun s => if s = it.symbol then some it.signal_id else st.last_seen s },
      buyPart.2 ++ sellPart)

/-- The full symbol loop of run_strategy, threading state and
accumulating events in order. -/
def run_strategy_cycle (threshold : ℚ) (max_pos : ℤ) (st : CycleState) :
    List SignalItem → CycleState × List CycleEvent
  | [] => (st, [])
  | it :: rest =>
      let r := run_strategy_step threshold max_pos st it
      let r2 := run_strategy_cycle threshold max_pos r.1 rest
      (r2.1, r.2 ++ r2.2)

/-! ## Bitget adapter: wait_for_order_final (brokers/bitget_client.py)

The poll loop is modelled with a fuel bound (number of iterations that
fit before the deadline) and a poll oracle: polls i is the outcome of the
i-th get_order_info call, none meaning the call raised (the source
swallows the exception and keeps the previous snapshot). -/

structure BitgetOrderInfo : Type where
  status : String
  orderId : String
  side : String
  priceAvg : ℚ
  price : ℚ
  baseVolume : ℚ
  size : ℚ
  symbol : String
deriving DecidableEq, Repr

/-- OrderResult as produced by the Bitget adapter. -/
structure OrderResult : Type where
  order_id : String
  symbol : String
  side : String
  quantity : ℚ
  price : ℚ
  status : String
deriving DecidableEq, Repr

/-- Statuses that break the poll loop. -/
def bitgetBreakStatuses : List String := ["filled", "cancelled", "canceled", "rejected"]

/-- Poll loop body: update the last snapshot on every successful call and
stop early on a terminal status. -/
def bitgetPollLoop (polls : ℕ → Option BitgetOrderInfo) :
    ℕ → ℕ → Option BitgetOrderInfo → Option BitgetOrderInfo
  | 0, _, last => last
  | Nat.succ fuel, i, last =>
      match polls i with
      | none => bitgetPollLoop polls fuel (i + 1) last
      | some info =>
          if toLowerStr info.status ∈ bitgetBreakStatuses then some info
          else bitgetPollLoop polls fuel (i + 1) (some info)

/-- Builds the OrderResult from the last observed snapshot, normalising
the status and falling back to the call arguments, exactly as the tail of
wait_for_order_final does (fields absent from the snapshot are the empty
string or 0, matching the defaulting try blocks of the source; the
_to_bitget_symbol conversion is modelled as the stored symbol string). -/
def bitgetFinalResult (last : Option BitgetOrderInfo)
    (order_id symbol : Option String) : OrderResult :=
  let status := toLowerStr (match last with | none => "" | some i => i.status)
  let status := if status = "" then "unknown" else status
  let norm :=
    if status = "filled" then "filled"
    else if status = "cancelled" ∨ status = "canceled" then "canceled"
    else if status = "rejected" then "rejected"
    else if status = "live" ∨ status = "partially_filled" then "submitted"
    else status
  let oid0 := match last with | none => "" | some i => i.orderId
  let oid := if oid0 ≠ "" then oid0 else order_id.getD ""
  let side_raw := toLowerStr (match last with | none => "" | some i => i.side)
  let side := if side_raw = "buy" then "buy" else if side_raw = "sell" then "sell" else "buy"
  let avg := match last with | none => 0 | some i => i.priceAvg
  let qty_exec := match last with | none => 0 | some i => i.baseVolume
  let qty_req := match last with | none => 0 | some i => i.size
  let qty := if qty_exec > 0 then qty_exec else qty_req
  let price := if avg ≤ 0 then (match last with | none => 0 | some i => i.price) else avg
  let sym := match symbol with
    | some s => s
    | none => match last with | none => "" | some i => i.symbol
  { order_id := oid, symbol := sym, side := side, quantity := qty,
    price := price, status := norm }

/-- Models BitgetBroker.wait_for_order_final: run the bounded poll loop
from an empty snapshot, then build the result from the last-known state.
The function is total: every exception of the Python loop body is caught
there, which the Option-valued poll oracle reflects. -/
def wait_for_order_final (fuel : ℕ) (polls : ℕ → Option BitgetOrderInfo)
    (order_id symbol : Option String) : OrderResult :=
  bitgetFinalResult (bitgetPollLoop polls fuel 0 none) order_id symbol

/-! ## Atomic state store (state_store.py) and the JSON codec

atomic_write_json serialises with json.dumps(obj, ensure_ascii=False,
indent=2) and replaces the file atomically; atomic_read_json parses with
json.load and returns the caller default on any failure.  The json module
is modelled by an executable printer faithful to the dumps output format
(two-space indent, separators comma and colon-space, escaping of the
quote, backslash and control characters) and a recursive-descent reader
of that grammar (numbers restricted to integers, see Json). -/

def digitChar (n : ℕ) : Char := Char.ofNat (48 + n)

def hexChar (n : ℕ) : Char :=
  if n < 10 then Char.ofNat (48 + n) else Char.ofNat (87 + n)

/-- Decimal digits of n, most significant first, by structural recursion
on a fuel bound (n itself suffices). -/
def printNatAux : ℕ → ℕ → List Char
  | 0, _ => []
  | fuel + 1, n =>
      if n = 0 then [] else printNatAux fuel (n / 10) ++ [digitChar (n % 10)]

def printNat (n : ℕ) : List Char :=
  if n = 0 then ['0'] else printNatAux n n

def printInt (i : ℤ) : List Char :=
  if i < 0 then '-' :: printNat i.natAbs else printNat i.natAbs

/-- Escape one character the way json.dumps with ensure_ascii=False does:
short escapes for quote, backslash and the common control characters, a
u00XX escape for the remaining control characters, everything else
verbatim. -/
def escapeChar (c : Char) : List Char :=
  if c = '"' then ['\\', '"']
  else if c = '\\' then ['\\', '\\']
  else if c = Char.ofNat 10 then ['\\', 'n']
  else if c = Char.ofNat 9 then ['\\', 't']
  else if c = Char.ofNat 13 then ['\\', 'r']
  else if c = Char.ofNat 8 then ['\\', 'b']
  else if c = Char.ofNat 12 then ['\\', 'f']
  else if c.toNat < 32 then
    ['\\', 'u', '0', '0', hexChar (c.toNat / 16), hexChar (c.toNat % 16)]
  else [c]

def escapeBody (cs : List Char) : List Char :=
  cs.foldr (fun c acc => escapeChar c ++ acc) []

def printStrLit (s : String) : List Char :=
  '"' :: escapeBody s.toList ++ ['"']

def pad (n : ℕ) : List Char := List.replicate n ' '

mutual

/-- Serialises a value at the given indent level exactly as json.dumps
with indent=2 lays it out. -/
def printJson : ℕ → Json → List Char
  | _, Json.null => ['n', 'u', 'l', 'l']
  | _, Json.bool true => ['t', 'r', 'u', 'e']
  | _, Json.bool false => ['f', 'a', 'l', 's', 'e']
  | _, Json.num i => printInt i
  | _, Json.str s => printStrLit s
  | _, Json.arr [] => ['[', ']']
  | ind, Json.arr (x :: xs) =>
      '[' :: '\n' :: printArrItems (ind + 2) x xs ++ '\n' :: (pad ind ++ [']'])
  | _, Json.obj [] => ['{', '}']
  | ind, Json.obj (x :: xs) =>
      '{' :: '\n' :: printObjItems (ind + 2) x xs ++ '\n' :: (pad ind ++ ['}'])
termination_by ind j => sizeOf j
decreasing_by
  all_goals simp [Json._sizeOf_1, Json._sizeOf_2, Json._sizeOf_3, List._sizeOf_1]
  all_goals omega

def printArrItems : ℕ → Json → List Json → List Char
  | ind, x, [] => pad ind ++ printJson ind x
  | ind, x, y :: ys =>
      pad ind ++ printJson ind x ++ ',' :: '\n' :: printArrItems ind y ys
termination_by ind x xs => 1 + sizeOf x + sizeOf xs
decreasing_by
  all_goals simp [Json._sizeOf_1, Json._sizeOf_2, Json._sizeOf_3, List._sizeOf_1]
  all_goals omega

def printObjItems : ℕ → String × Json → List (String × Json) → List Char
  | ind, (k, v), [] => pad ind ++ printStrLit k ++ ':' :: ' ' :: printJson ind v
  | ind, (k, v), y :: ys =>
      pad ind ++ printStrLit k ++ ':' :: ' ' :: printJson ind v ++
        ',' :: '\n' :: printObjItems ind y ys
termination_by ind kv xs => 1 + sizeOf kv + sizeOf xs
decreasing_by
  all_goals simp [Json._sizeOf_1, Json._sizeOf_2, Json._sizeOf_3, List._sizeOf_1]
  all_goals omega

end

/-- Full serialised form: json.dumps(obj, ensure_ascii=False, indent=2). -/
def dumps (x : Json) : List Char := printJson 0 x

def isWsChar (c : Char) : Bool :=
  c = ' ' ∨ c = Char.ofNat 10 ∨ c = Char.ofNat 9 ∨ c = Char.ofNat 13

def skipWs : List Char → List Char
  | [] => []
  | c :: t => if isWsChar c then skipWs t else c :: t

def isDigitChar (c : Char) : Bool := 48 ≤ c.toNat ∧ c.toNat ≤ 57

/-- Digit run accumulator of the number reader. -/
def parseDigits : List Char → ℕ → ℕ × List Char
  | [], acc => (acc, [])
  | c :: t, acc =>
      if isDigitChar c then parseDigits t (acc * 10 + (c.toNat - 48))
      else (acc, c :: t)

/-- Reads a nonempty digit run. -/
def parseNat : List Char → Option (ℕ × List Char)
  | [] => none
  | c :: t => if isDigitChar c then some (parseDigits t (c.toNat - 48)) else none

def hexVal (c : Char) : Option ℕ :=
  if 48 ≤ c.toNat ∧ c.toNat ≤ 57 then some (c.toNat - 48)
  else if 97 ≤ c.toNat ∧ c.toNat ≤ 102 then some (c.toNat - 87)
  else if 65 ≤ c.toNat ∧ c.toNat ≤ 70 then some (c.toNat - 55)
  else none

/-- Reads the body of a string literal after the opening quote, decoding
escapes, up to the closing quote. -/
def parseStringBody (s : List Char) : Option (List Char × List Char) :=
  match s with
  | [] => none
  | c :: t =>
      if c = '"' then some ([], t)
      else if c = '\\' then
        match t with
        | [] => none
        | e :: t2 =>
            if e = 'u' then
              match t2 with
              | h1 :: h2 :: h3 :: h4 :: t3 =>
                  (match hexVal h1, hexVal h2, hexVal h3, hexVal h4 with
                    | some a, some b, some c2, some d =>
                        let code := ((a * 16 + b) * 16 + c2) * 16 + d
                        if _h : code.isValidChar then
                          (parseStringBody t3).map (fun r => (Char.ofNat code :: r.1, r.2))
                        else none
                    | _, _, _, _ => none)
              | _ => none
            else
              let dec : Option Char :=
                if e = '"' then some '"'
                else if e = '\\' then some '\\'
                else if e = '/' then some '/'
                else if e = 'b' then some (Char.ofNat 8)
                else if e = 'f' then some (Char.ofNat 12)
                else if e = 'n' then some (Char.ofNat 10)
                else if e = 'r' then some (Char.ofNat 13)
                else if e = 't' then some (Char.ofNat 9)
                else none
              match dec with
              | some c2 => (parseStringBody t2).map (fun r => (c2 :: r.1, r.2))
              | none => none
      else (parseStringBody t).map (fun r => (c :: r.1, r.2))
termination_by s.length
decreasing_by all_goals (simp_arith)

/-- Requires the expected characters as a prefix and returns the rest. -/
def expectChars : List Char → List Char → Option (List Char)
  | [], s => some s
  | e :: es, [] => none
  | e :: es, c :: t => if c = e then expectChars es t else none

mutual

/-- Recursive-descent reader of the printed grammar; the fuel argument
bounds the recursion depth and loads supplies one more than the input
length, which the round-trip proof shows is always enough. -/
def parseVal : ℕ → List Char → Option (Json × List Char)
  | 0, _ => none
  | fuel + 1, s =>
      match skipWs s with
      | [] => none
      | c :: t =>
          if c = 'n' then (expectChars ['u', 'l', 'l'] t).map (fun r => (Json.null, r))
          else if c = 't' then
            (expectChars ['r', 'u', 'e'] t).map (fun r => (Json.bool true, r))
          else if c = 'f' then
            (expectChars ['a', 'l', 's', 'e'] t).map (fun r => (Json.bool false, r))
          else if c = '"' then
            (parseStringBody t).map (fun r => (Json.str (String.mk r.1), r.2))
          else if c = '[' then
            match skipWs t with
            | [] => none
            | c2 :: r =>
                if c2 = ']' then some (Json.arr [], r)
                else (parseArrItems fuel (c2 :: r)).map (fun w => (Json.arr w.1, w.2))
          else if c = '{' then
            match skipWs t with
            | [] => none
            | c2 :: r =>
                if c2 = '}' then some (Json.obj [], r)
                else (parseObjItems fuel (c2 :: r)).map (fun w => (Json.obj w.1, w.2))
          else if c = '-' then (parseNat t).map (fun r => (Json.num (-(r.1 : ℤ)), r.2))
          else if isDigitChar c then
            (parseNat (c :: t)).map (fun r => (Json.num (r.1 : ℤ), r.2))
          else none

def parseArrItems : ℕ → List Char → Option (List Json × List Char)
  | 0, _ => none
  | fuel + 1, s =>
      match parseVal fuel s with
      | none => none
      | some (v, r) =>
          match skipWs r with
          | [] => none
          | c :: r2 =>
              if c = ',' then (parseArrItems fuel r2).map (fun w => (v :: w.1, w.2))
              else if c = ']' then some ([v], r2)
              else none

def parseObjItems : ℕ → List Char → Option (List (String × Json) × List Char)
  | 0, _ => none
  | fuel + 1, s =>
      match skipWs s with
      | [] => none
      | c :: t =>
          if c = '"' then
            match parseStringBody t with
            | none => none
            | some (k, r) =>
                match skipWs r with
                | [] => none
                | c2 :: r2 =>
                    if c2 = ':' then
                      match parseVal fuel r2 with
                      | none => none
                      | some (v, r3) =>
                          match skipWs r3 with
                          | [] => none
                          | c3 :: r4 =>
                              if c3 = ',' then
                                (parseObjItems fuel r4).map
                                  (fun w => ((String.mk k, v) :: w.1, w.2))
                              else if c3 = '}' then some ([(String.mk k, v)], r4)
                              else none
                    else none
          else none

end

mutual

/-- Fuel requirement of parseVal on printed output. -/
def needVal : Json → ℕ
  | Json.null => 1
  | Json.bool _ => 1
  | Json.num _ => 1
  | Json.str _ => 1
  | Json.arr l => 1 + needArr l
  | Json.obj l => 1 + needObj l
termination_by j => sizeOf j
decreasing_by
  all_goals simp [Json._sizeOf_1, Json._sizeOf_2, Json._sizeOf_3, List._sizeOf_1]
  all_goals omega

/-- Fuel requirement of parseArrItems. -/
def needArr : List Json → ℕ
  | [] => 0
  | x :: xs => 1 + needVal x + needArr xs
termination_by l => sizeOf l
decreasing_by
  all_goals simp [Json._sizeOf_1, Json._sizeOf_2, Json._sizeOf_3, List._sizeOf_1]
  all_goals omega

/-- Fuel requirement of parseObjItems. -/
def needObj : List (String × Json) → ℕ
  | [] => 0
  | (k, v) :: xs => 1 + needVal v + needObj xs
termination_by l => sizeOf l
decreasing_by
  all_goals simp [Json._sizeOf_1, Json._sizeOf_2, Json._sizeOf_3, List._sizeOf_1]
  all_goals omega

end

/-- Models json.load on the file content: parse one value, then require
only whitespace to remain. -/
def loads (s : String) : Option Json :=
  match parseVal (s.length + 1) s.toList with
  | some (v, r) => if skipWs r = [] then some v else none
  | none => none

/-- File contents by path. -/
def FileSystem : Type := String → Option String

/-- Models atomic_write_json: after the temp-write, fsync and rename, the
path maps to the full serialised document (the crash-safe replace makes
the update a single atomic state change, which a state map captures). -/
def atomic_write_json (fs : FileSystem) (path : String) (obj : Json) : FileSystem :=
  fun p => if p = path then some (String.mk (dumps obj)) else fs p

/-- Models atomic_read_json: any failure to open or parse yields the
caller default. -/
def atomic_read_json (fs : FileSystem) (path : String) (default : Json) : Json :=
  match fs path with
  | none => default
  | some content =>
      match loads content with
      | some v => v
      | none => default

/-! ## Theorems -/

theorem killStep_fold_true (tr : List RunnerEvent) :
    List.foldl killStep true tr = true := by
  induction tr with
  | nil => rfl
  | cons h t ih => cases h <;> simpa [killStep] using ih

/-- C4: once the process-local kill-switch boolean is set by
_handle_kill_switch, it stays set across any sequence of later runner
events (the source assigns it only in the constructor and in
_handle_kill_switch), and every call of _router_execute_order under the
set flag returns the kill-switch error before any router dispatch: the
ok branch, which alone records a forwarded order, is never produced. -/
theorem c4_kill_switch_blocks_all_orders (tr : List RunnerEvent)
    (symbol side : String) (quantity : ℚ) (order_type : String)
    (client_id : Option String) :
    List.foldl killStep true tr = true ∧
    router_execute_order (List.foldl killStep true tr) symbol side quantity
        order_type client_id
      = Except.error "KILL-SWITCH active: new orders blocked" := by
  refine ⟨killStep_fold_true tr, ?_⟩
  rw [killStep_fold_true tr]
  rfl

/-- C6 counterexample: at confidence 1, threshold 1/2, base 0, max 1 the
code returns 500000/500001 (the denominator carries the 1e-6 epsilon)
while the formula of the claim returns 1. -/
theorem c6_risk_formula_counterexample :
    compute_risk_per_trade (some 1) 0 1 (1 / 2) ≠ spec_risk_formula 1 0 1 (1 / 2) := by
  norm_num [compute_risk_per_trade, spec_risk_formula]

/-- C6 amended: the per-trade risk equals
clip(base + (max - base) * clip01((c - thr) / (1 - thr + 1e-6)), base, max),
and whenever base_risk is at most max_risk the returned value lies in
[base_risk, max_risk] (including the confidence-None branch). -/
theorem c6_risk_formula_amended (confidence : Option ℚ)
    (c base_risk max_risk threshold : ℚ) :
    compute_risk_per_trade (some c) base_risk max_risk threshold
        = amended_risk_formula c base_risk max_risk threshold ∧
    (base_risk ≤ max_risk →
      base_risk ≤ compute_risk_per_trade confidence base_risk max_risk threshold ∧
      compute_risk_per_trade confidence base_risk max_risk threshold ≤ max_risk) := by
  constructor
  · rfl
  · intro h
    cases confidence with
    | none => exact ⟨le_refl _, h⟩
    | some c2 =>
        refine ⟨le_max_left _ _, ?_⟩
        exact max_le h (min_le_left _ _)

theorem c6_risk_formula_amended_witness :
    compute_risk_per_trade (some (7 / 10)) (1 / 100) (3 / 100) (3 / 5)
        = amended_risk_formula (7 / 10) (1 / 100) (3 / 100) (3 / 5) ∧
    ((1 : ℚ) / 100 ≤ compute_risk_per_trade (some (7 / 10)) (1 / 100) (3 / 100) (3 / 5) ∧
      compute_risk_per_trade (some (7 / 10)) (1 / 100) (3 / 100) (3 / 5) ≤ 3 / 100) := by
  have h := c6_risk_formula_amended (some (7 / 10)) (7 / 10) (1 / 100) (3 / 100) (3 / 5)
  exact ⟨h.1, h.2 (by norm_num)⟩

/-- C10 counterexample: in LIVE mode with the daily-drawdown limit
breached, a buy with quantity 0 raises the guard RuntimeError, not the
ValueError of the quantity check, because the guard runs first. -/
theorem c10_counterexample :
    execute_order
      { mode := "live", max_daily_drawdown := 1 / 20, anchor_equity := 10000,
        anchor_by_broker := [("bitget", 10000)], details := [("bitget", 9490)] }
      "BTCUSDT" "buy" 0 "market" none
      = Except.error (RouterError.runtimeError "MAX_DAILY_DRAWDOWN reached for bitget") := by
  have hg : check_daily_drawdown_guard
      { mode := "live", max_daily_drawdown := 1 / 20, anchor_equity := 10000,
        anchor_by_broker := [("bitget", 10000)], details := [("bitget", 9490)] }
      = some "MAX_DAILY_DRAWDOWN reached for bitget" := by
    norm_num [check_daily_drawdown_guard, ddBrokerLoop, List.lookup]
    rfl
  unfold execute_order
  rw [if_pos ⟨rfl, by decide⟩, hg]

/-- C10 amended: every call with quantity at most 0 raises before a broker
is resolved or an order dispatched (the ok branch alone carries a
dispatch); the error is the quantity ValueError except when the LIVE-buy
daily-drawdown guard fires first, in which case it is the guard error. -/
theorem c10_nonpositive_qty_rejected (st : GuardState) (symbol side : String)
    (q : ℚ) (order_type : String) (client_id : Option String) (hq : q ≤ 0) :
    (∃ err, execute_order st symbol side q order_type client_id = Except.error err) ∧
    (¬(st.mode = "live" ∧ toLowerStr side ∈ ["buy"] ∧ check_daily_drawdown_guard st ≠ none) →
      execute_order st symbol side q order_type client_id
        = Except.error
            (RouterError.valueError "ExecutionRouter.execute_order: quantity must be > 0")) := by
  unfold execute_order
  by_cases hA : st.mode = "live" ∧ toLowerStr side ∈ ["buy"]
  · rw [if_pos hA]
    cases hG : check_daily_drawdown_guard st with
    | some e =>
        simp only [hG]
        refine ⟨⟨RouterError.runtimeError e, rfl⟩, ?_⟩
        intro hcon
        exact absurd ⟨hA.1, hA.2, by simp [hG]⟩ hcon
    | none =>
        simp only [hG, if_pos hq]
        exact ⟨⟨_, rfl⟩, fun _ => by trivial⟩
  · rw [if_neg hA]
    simp only [if_pos hq]
    exact ⟨⟨_, rfl⟩, fun _ => by trivial⟩

theorem c10_nonpositive_qty_rejected_witness :
    (∃ err, execute_order
        { mode := "backtest", max_daily_drawdown := 0, anchor_equity := 0,
          anchor_by_broker := [], details := [] } "BTCUSDT" "sell" 0 "market" none
      = Except.error err) ∧
    execute_order
        { mode := "backtest", max_daily_drawdown := 0, anchor_equity := 0,
          anchor_by_broker := [], details := [] } "BTCUSDT" "sell" 0 "market" none
      = Except.error
          (RouterError.valueError "ExecutionRouter.execute_order: quantity must be > 0") := by
  have h := c10_nonpositive_qty_rejected
    { mode := "backtest", max_daily_drawdown := 0, anchor_equity := 0,
      anchor_by_broker := [], details := [] } "BTCUSDT" "sell" 0 "market" none (by norm_num)
  exact ⟨h.1, h.2 (by decide)⟩

theorem ddBrokerLoop_none_iff (max_dd : ℚ) (anchors : List (String × ℚ))
    (l : List (String × ℚ)) :
    ddBrokerLoop max_dd anchors l = none ↔
      ∀ p ∈ l, ¬(0 < (List.lookup p.1 anchors).getD 0 ∧ 0 < p.2 ∧
          ((List.lookup p.1 anchors).getD 0 - p.2) / (List.lookup p.1 anchors).getD 0
            ≥ max_dd) := by
  induction l with
  | nil => simp [ddBrokerLoop]
  | cons hd t ih =>
      obtain ⟨name, cur⟩ := hd
      simp only [ddBrokerLoop, List.mem_cons, forall_eq_or_imp]
      split_ifs with hc
      · exact ⟨fun h => absurd h (by simp), fun h => absurd hc h.1⟩
      · exact ⟨fun h => ⟨hc, ih.mp h⟩, fun h => ih.mpr h.2⟩

/-- C5 amended: sell orders bypass the drawdown guard entirely and
proceed for positive quantity whatever the guard state; in LIVE with the
limit and anchor positive, the guard refuses exactly when some broker has
positive anchor AND POSITIVE CURRENT EQUITY with drawdown at or above the
limit, or the global aggregate drawdown is at or above the limit; a LIVE
buy errors exactly when the guard refuses.  (The claim omitted the
positive-current-equity condition; see the counterexample.) -/
theorem c5_drawdown_guard_amended (st : GuardState) (symbol order_type : String)
    (client_id : Option String) (q : ℚ) (hq : 0 < q) :
    (execute_order st symbol "sell" q order_type client_id
        = Except.ok { symbol := symbol, side := "sell", quantity := q,
                      order_type := order_type, client_id := client_id }) ∧
    (st.mode = "live" → 0 < st.max_daily_drawdown → 0 < st.anchor_equity →
      (check_daily_drawdown_guard st ≠ none ↔
        ((∃ p ∈ st.details,
            0 < (List.lookup p.1 st.anchor_by_broker).getD 0 ∧ 0 < p.2 ∧
            ((List.lookup p.1 st.anchor_by_broker).getD 0 - p.2) /
                (List.lookup p.1 st.anchor_by_broker).getD 0 ≥ st.max_daily_drawdown) ∨
          (st.anchor_equity - (st.details.map Prod.snd).sum) / st.anchor_equity
            ≥ st.max_daily_drawdown))) ∧
    (st.mode = "live" →
      ((∃ e, execute_order st symbol "buy" q order_type client_id = Except.error e) ↔
        check_daily_drawdown_guard st ≠ none)) := by
  refine ⟨?_, ?_, ?_⟩
  · unfold execute_order
    rw [if_neg (by intro h; exact absurd h.2 (by decide))]
    rw [if_neg (not_le.mpr hq)]
  · intro hlive hdd hanchor
    unfold check_daily_drawdown_guard
    rw [if_neg (by simp [hlive]), if_neg (not_le.mpr hdd), if_neg (not_le.mpr hanchor)]
    cases hl : ddBrokerLoop st.max_daily_drawdown st.anchor_by_broker st.details with
    | some e =>
        simp only
        constructor
        · intro _
          left
          have hne : ¬ ddBrokerLoop st.max_daily_drawdown st.anchor_by_broker st.details
              = none := by simp [hl]
          rw [ddBrokerLoop_none_iff] at hne
          push_neg at hne
          obtain ⟨p, hp, h1, h2, h3⟩ := hne
          exact ⟨p, hp, h1, h2, h3⟩
        · intro _
          simp
      | none =>
        simp only
        split_ifs with hg
        · constructor
          · intro _
            right
            exact hg
          · intro _
            simp
        · constructor
          · intro h
            exact absurd rfl h
          · intro h
            rcases h with h | h
            · obtain ⟨p, hp, hcond⟩ := h
              have := (ddBrokerLoop_none_iff st.max_daily_drawdown st.anchor_by_broker
                st.details).mp hl p hp
              exact absurd hcond this
            · exact absurd h hg
  · intro hlive
    unfold execute_order
    rw [if_pos ⟨hlive, by decide⟩]
    cases hG : check_daily_drawdown_guard st with
    | some e =>
        simp only
        exact ⟨fun _ => by simp [hG], fun _ => ⟨RouterError.runtimeError e, rfl⟩⟩
    | none =>
        simp only [hG]
        rw [if_neg (not_le.mpr hq)]
        constructor
        · intro h
          obtain ⟨e, he⟩ := h
          exact absurd he (by simp)
        · intro h
          exact absurd rfl h

theorem c5_drawdown_guard_amended_witness :
    (execute_order
        { mode := "live", max_daily_drawdown := 1 / 20, anchor_equity := 10000,
          anchor_by_broker := [("bitget", 10000)], details := [("bitget", 9490)] }
        "BTCUSDT" "sell" 1 "market" none
      = Except.ok { symbol := "BTCUSDT", side := "sell", quantity := 1,
                    order_type := "market", client_id := none }) ∧
    (check_daily_drawdown_guard
        { mode := "live", max_daily_drawdown := 1 / 20, anchor_equity := 10000,
          anchor_by_broker := [("bitget", 10000)], details := [("bitget", 9490)] } ≠ none ↔
      ((∃ p ∈ [(("bitget" : String), (9490 : ℚ))],
          0 < (List.lookup p.1 [(("bitget" : String), (10000 : ℚ))]).getD 0 ∧ 0 < p.2 ∧
          ((List.lookup p.1 [(("bitget" : String), (10000 : ℚ))]).getD 0 - p.2) /
              (List.lookup p.1 [(("bitget" : String), (10000 : ℚ))]).getD 0 ≥ 1 / 20) ∨
        ((10000 : ℚ) - ([(("bitget" : String), (9490 : ℚ))].map Prod.snd).sum) / 10000
          ≥ 1 / 20)) := by
  have h := c5_drawdown_guard_amended
    { mode := "live", max_daily_drawdown := 1 / 20, anchor_equity := 10000,
      anchor_by_broker := [("bitget", 10000)], details := [("bitget", 9490)] }
    "BTCUSDT" "market" none 1 (by norm_num)
  exact ⟨h.1, h.2.1 rfl (by norm_num) (by norm_num)⟩

/-- C5 counterexample: a state where one broker fell from anchor 100 to
equity 0 while another rose from 100 to 200.  The drawdown of the first
broker is 100 percent, at or above the limit, so the claim says the guard
refuses; but the per-broker check skips brokers with non-positive current
equity and the global aggregate is flat, so the guard passes and a LIVE
buy is dispatched. -/
theorem c5_counterexample :
    spec_drawdown_refusal
      { mode := "live", max_daily_drawdown := 1 / 20, anchor_equity := 200,
        anchor_by_broker := [("a", 100), ("b", 100)], details := [("a", 0), ("b", 200)] } ∧
    check_daily_drawdown_guard
      { mode := "live", max_daily_drawdown := 1 / 20, anchor_equity := 200,
        anchor_by_broker := [("a", 100), ("b", 100)], details := [("a", 0), ("b", 200)] }
      = none ∧
    execute_order
      { mode := "live", max_daily_drawdown := 1 / 20, anchor_equity := 200,
        anchor_by_broker := [("a", 100), ("b", 100)], details := [("a", 0), ("b", 200)] }
      "BTCUSDT" "buy" 1 "market" none
      = Except.ok { symbol := "BTCUSDT", side := "buy", quantity := 1,
                    order_type := "market", client_id := none } := by
  have hg : check_daily_drawdown_guard
      { mode := "live", max_daily_drawdown := 1 / 20, anchor_equity := 200,
        anchor_by_broker := [("a", 100), ("b", 100)], details := [("a", 0), ("b", 200)] }
      = none := by
    have l1 : List.lookup "a" [("a", (100 : ℚ)), ("b", 100)] = some 100 := by rfl
    have l2 : List.lookup "b" [("a", (100 : ℚ)), ("b", 100)] = some 100 := by rfl
    norm_num [check_daily_drawdown_guard, ddBrokerLoop, l1, l2]
  refine ⟨?_, hg, ?_⟩
  · refine ⟨by norm_num, by norm_num, Or.inl ⟨("a", 0), by simp, ?_⟩⟩
    norm_num [List.lookup]
  · unfold execute_order
    rw [if_pos ⟨rfl, by decide⟩, hg]
    rw [if_neg (by norm_num)]

theorem bitgetPollLoop_all_none (polls : ℕ → Option BitgetOrderInfo)
    (last : Option BitgetOrderInfo) :
    ∀ fuel i, (∀ j, j < fuel → polls (i + j) = none) →
      bitgetPollLoop polls fuel i last = last := by
  intro fuel
  induction fuel with
  | zero => intro i _; rfl
  | succ n ih =>
      intro i h
      have h0 : polls i = none := by simpa using h 0 (Nat.succ_pos n)
      simp only [bitgetPollLoop, h0]
      exact ih (i + 1) (fun j hj => by
        have := h (j + 1) (by omega)
        simpa [Nat.add_assoc, Nat.add_comm 1 j] using this)

theorem bitgetPollLoop_congr (polls polls2 : ℕ → Option BitgetOrderInfo) :
    ∀ fuel i last, (∀ j, i ≤ j → j < i + fuel → polls j = polls2 j) →
      bitgetPollLoop polls fuel i last = bitgetPollLoop polls2 fuel i last := by
  intro fuel
  induction fuel with
  | zero => intro i last _; rfl
  | succ n ih =>
      intro i last h
      have h0 : polls i = polls2 i := h i (le_refl i) (by omega)
      cases hp : polls i with
      | none =>
          have hp2 : polls2 i = none := h0.symm.trans hp
          simp only [bitgetPollLoop, hp, hp2]
          exact ih (i + 1) last (fun j hj1 hj2 => h j (by omega) (by omega))
      | some info =>
          have hp2 : polls2 i = some info := h0.symm.trans hp
          simp only [bitgetPollLoop, hp, hp2]
          split
          · rfl
          · exact ih (i + 1) (some info) (fun j hj1 hj2 => h j (by omega) (by omega))

/-- C8: the poll loop of wait_for_order_final runs at most the number of
iterations that fit before the caller-supplied deadline (the result
depends only on the first fuel poll outcomes), every poll exception is
swallowed (the oracle value none), the function is total by construction
rather than throwing, and when the deadline passes with nothing ever
observed the returned OrderResult carries status unknown and falls back
to the caller order id and symbol. -/
theorem c8_wait_for_order_final_bounded (fuel : ℕ)
    (polls polls2 : ℕ → Option BitgetOrderInfo) (order_id symbol : Option String) :
    ((∀ i, i < fuel → polls i = none) →
      wait_for_order_final fuel polls order_id symbol
        = { order_id := order_id.getD "", symbol := symbol.getD "", side := "buy",
            quantity := 0, price := 0, status := "unknown" }) ∧
    ((∀ i, i < fuel → polls i = polls2 i) →
      wait_for_order_final fuel polls order_id symbol
        = wait_for_order_final fuel polls2 order_id symbol) := by
  constructor
  · intro h
    unfold wait_for_order_final
    rw [bitgetPollLoop_all_none polls none fuel 0 (fun j hj => by simpa using h j hj)]
    cases symbol <;> cases order_id <;> rfl
  · intro h
    unfold wait_for_order_final
    rw [bitgetPollLoop_congr polls polls2 fuel 0 none
      (fun j hj1 hj2 => h j (by omega))]

theorem c8_wait_for_order_final_bounded_witness :
    wait_for_order_final 3 (fun _ => none) (some "oid-1") (some "BTCUSDT")
      = { order_id := "oid-1", symbol := "BTCUSDT", side := "buy",
          quantity := 0, price := 0, status := "unknown" } ∧
    wait_for_order_final 3 (fun _ => none) (some "oid-1") (some "BTCUSDT")
      = wait_for_order_final 3 (fun i => if i < 3 then none else
          some { status := "filled", orderId := "x", side := "buy", priceAvg := 1,
                 price := 1, baseVolume := 1, size := 1, symbol := "BTCUSDT" })
          (some "oid-1") (some "BTCUSDT") := by
  have h := c8_wait_for_order_final_bounded 3 (fun _ => none)
    (fun i => if i < 3 then none else
      some { status := "filled", orderId := "x", side := "buy", priceAvg := 1,
             price := 1, baseVolume := 1, size := 1, symbol := "BTCUSDT" })
    (some "oid-1") (some "BTCUSDT")
  exact ⟨h.1 (fun i _ => rfl), h.2 (fun i hi => by simp [hi])⟩

theorem dictGet_dictMerge_some (k : String) (v : Json) (prev new : List (String × Json))
    (h : dictGet k new = some v) : dictGet k (dictMerge prev new) = some v := by
  induction new with
  | nil => simp [dictGet] at h
  | cons hd t ih =>
      obtain ⟨k2, w⟩ := hd
      by_cases hk : k2 = k
      · subst hk
        have hwv : some w = some v := by simpa [dictGet] using h
        simp [dictGet, dictMerge, hwv]
      · simp only [dictGet, if_neg hk] at h
        simpa [dictGet, dictMerge, hk] using ih h

theorem dictGet_dictMerge_none (k : String) (prev new : List (String × Json))
    (h : dictGet k new = none) : dictGet k (dictMerge prev new) = dictGet k prev := by
  induction new with
  | nil => simp [dictMerge]
  | cons hd t ih =>
      obtain ⟨k2, w⟩ := hd
      by_cases hk : k2 = k
      · simp [dictGet, hk] at h
      · simp only [dictGet, if_neg hk] at h
        simpa [dictGet, dictMerge, hk] using ih h

theorem reserve_order_apply_ne (tbl : Orders) (cid2 b s r sd : String)
    (p : List (String × Json)) (now : String) (c : String) (h : c ≠ cid2) :
    (reserve_order tbl cid2 b s r sd p now).2 c = tbl c := by
  unfold reserve_order
  cases hrow : tbl cid2 with
  | none => simp [h]
  | some row =>
      dsimp only
      split_ifs with hs
      · simp [h]
      · rfl

theorem mark_order_submitted_apply_ne (tbl : Orders) (cid2 oid : String)
    (p : List (String × Json)) (now : String) (c : String) (h : c ≠ cid2) :
    mark_order_submitted tbl cid2 oid p now c = tbl c := by
  unfold mark_order_submitted
  cases tbl cid2 with
  | none => rfl
  | some row => simp [h]

theorem mark_order_final_apply_ne (tbl : Orders) (cid2 st : String)
    (p : List (String × Json)) (now : String) (c : String) (h : c ≠ cid2) :
    mark_order_final tbl cid2 st p now c = tbl c := by
  unfold mark_order_final
  cases tbl cid2 with
  | none => rfl
  | some row => simp [h]

theorem reserve_order_false_of_active (tbl : Orders) (cid b s r sd : String)
    (p : List (String × Json)) (now : String) (row : OrderRow)
    (hrow : tbl cid = some row) (hneg : toLowerStr row.status ∉ negativeStatuses) :
    (reserve_order tbl cid b s r sd p now).1 = false ∧
    (reserve_order tbl cid b s r sd p now).2 = tbl := by
  unfold reserve_order
  rw [hrow]
  simp [hneg]

theorem applyLedgerOp_preserves_active (tbl : Orders) (cid : String) (op : LedgerOp)
    (hop : ¬ isNegativeTransition cid op)
    (hinv : ∃ row, tbl cid = some row ∧ toLowerStr row.status ∉ negativeStatuses) :
    ∃ row, applyLedgerOp tbl op cid = some row ∧
      toLowerStr row.status ∉ negativeStatuses := by
  obtain ⟨row, hrow, hneg⟩ := hinv
  cases op with
  | reserve c2 b2 s2 r2 sd2 p2 n2 =>
      by_cases hc : cid = c2
      · subst hc
        have h := reserve_order_false_of_active tbl cid b2 s2 r2 sd2 p2 n2 row hrow hneg
        exact ⟨row, by simp [applyLedgerOp, h.2, hrow], hneg⟩
      · exact ⟨row, by simp [applyLedgerOp, reserve_order_apply_ne _ _ _ _ _ _ _ _ _ hc, hrow],
          hneg⟩
  | markSubmitted c2 oid p2 n2 =>
      by_cases hc : cid = c2
      · subst hc
        refine ⟨{ row with
                  status := "submitted",
                  order_id := some oid,
                  payload := dictSet "_event" (Json.str "submitted")
                    (dictSet "_updated_at" (Json.str n2) (dictMerge row.payload p2)) }, ?_, ?_⟩
        · simp [applyLedgerOp, mark_order_submitted, hrow]
        · show toLowerStr "submitted" ∉ negativeStatuses
          decide
      · exact ⟨row,
          by simp [applyLedgerOp, mark_order_submitted_apply_ne _ _ _ _ _ _ hc, hrow], hneg⟩
  | markFinal c2 st p2 n2 =>
      by_cases hc : cid = c2
      · subst hc
        have hst : toLowerStr st ∉ negativeStatuses := by
          intro hmem
          exact hop ⟨rfl, hmem⟩
        refine ⟨{ row with
                  status := st,
                  payload := dictSet "_event" (Json.str ("final:" ++ st))
                    (dictSet "_updated_at" (Json.str n2) (dictMerge row.payload p2)) }, ?_, hst⟩
        simp [applyLedgerOp, mark_order_final, hrow]
      · exact ⟨row,
          by simp [applyLedgerOp, mark_order_final_apply_ne _ _ _ _ _ _ hc, hrow], hneg⟩

theorem applyLedgerOps_preserves_active (cid : String) (ops : List LedgerOp) :
    ∀ tbl : Orders, (∀ op ∈ ops, ¬ isNegativeTransition cid op) →
    (∃ row, tbl cid = some row ∧ toLowerStr row.status ∉ negativeStatuses) →
    ∃ row, applyLedgerOps tbl ops cid = some row ∧
      toLowerStr row.status ∉ negativeStatuses := by
  induction ops with
  | nil => intro tbl _ hinv; exact hinv
  | cons op t ih =>
      intro tbl hops hinv
      have h1 := applyLedgerOp_preserves_active tbl cid op (hops op (by simp)) hinv
      exact ih (applyLedgerOp tbl op) (fun o ho => hops o (by simp [ho])) h1

/-- C1: reserve_order inserts a reserved row and returns true on an
absent client_id; on a row in a negative terminal status it merges the
payload with new keys overriding old, bumps _retry_n, clears order_id,
resets the status to reserved and returns true; on the statuses
reserved, submitted and filled it returns false and leaves the table
unchanged; and after a successful reservation every later reserve_order
on that client_id returns false as long as no ledger operation performs
a terminal negative transition on it. -/
theorem c1_reserve_order_idempotency
    (tbl : Orders) (cid b s r sd : String) (p : List (String × Json)) (now : String) :
    (tbl cid = none →
      (reserve_order tbl cid b s r sd p now).1 = true ∧
      (reserve_order tbl cid b s r sd p now).2 cid =
        some { broker := b, symbol := s, role := r, side := sd,
               status := "reserved", order_id := none, payload := p }) ∧
    (∀ row, tbl cid = some row → toLowerStr row.status ∈ negativeStatuses →
      (reserve_order tbl cid b s r sd p now).1 = true ∧
      ∃ row2, (reserve_order tbl cid b s r sd p now).2 cid = some row2 ∧
        row2.status = "reserved" ∧ row2.order_id = none ∧
        getRetryN row2.payload = getRetryN row.payload + 1 ∧
        (∀ k v, k ≠ "_retry_n" → k ≠ "_retry_at" → k ≠ "_prev_status" →
          dictGet k p = some v → dictGet k row2.payload = some v) ∧
        (∀ k, k ≠ "_retry_n" → k ≠ "_retry_at" → k ≠ "_prev_status" →
          dictGet k p = none → dictGet k row2.payload = dictGet k row.payload)) ∧
    (∀ row, tbl cid = some row → toLowerStr row.status ∉ negativeStatuses →
      (reserve_order tbl cid b s r sd p now).1 = false ∧
      (reserve_order tbl cid b s r sd p now).2 = tbl) ∧
    ((reserve_order tbl cid b s r sd p now).1 = true →
      ∀ ops : List LedgerOp, (∀ op ∈ ops, ¬ isNegativeTransition cid op) →
        ∀ b2 s2 r2 sd2 p2 now2,
          (reserve_order (applyLedgerOps (reserve_order tbl cid b s r sd p now).2 ops)
            cid b2 s2 r2 sd2 p2 now2).1 = false) := by
  refine ⟨?_, ?_, ?_, ?_⟩
  · intro habs
    unfold reserve_order
    rw [habs]
    exact ⟨rfl, by simp⟩
  · intro row hrow hneg
    unfold reserve_order
    rw [hrow]
    simp only [if_pos hneg]
    refine ⟨by trivial, ⟨{ row with
        status := "reserved",
        order_id := none,
        payload := dictSet "_prev_status" (Json.str (toLowerStr row.status))
          (dictSet "_retry_at" (Json.str now)
            (dictSet "_retry_n" (Json.num (getRetryN row.payload + 1))
              (dictMerge row.payload p))) }, by simp, rfl, rfl, ?_, ?_, ?_⟩⟩
    · show getRetryN (dictSet "_prev_status" (Json.str (toLowerStr row.status))
        (dictSet "_retry_at" (Json.str now)
          (dictSet "_retry_n" (Json.num (getRetryN row.payload + 1))
            (dictMerge row.payload p)))) = getRetryN row.payload + 1
      simp [getRetryN, dictGet, dictSet]
    · intro k v h1 h2 h3 hget
      show dictGet k (dictSet "_prev_status" (Json.str (toLowerStr row.status))
        (dictSet "_retry_at" (Json.str now)
          (dictSet "_retry_n" (Json.num (getRetryN row.payload + 1))
            (dictMerge row.payload p)))) = some v
      simp only [dictGet, dictSet]
      rw [if_neg (show ¬("_prev_status" = k) from fun he => h3 he.symm),
        if_neg (show ¬("_retry_at" = k) from fun he => h2 he.symm),
        if_neg (show ¬("_retry_n" = k) from fun he => h1 he.symm)]
      exact dictGet_dictMerge_some k v row.payload p hget
    · intro k h1 h2 h3 hget
      show dictGet k (dictSet "_prev_status" (Json.str (toLowerStr row.status))
        (dictSet "_retry_at" (Json.str now)
          (dictSet "_retry_n" (Json.num (getRetryN row.payload + 1))
            (dictMerge row.payload p)))) = dictGet k row.payload
      simp only [dictGet, dictSet]
      rw [if_neg (show ¬("_prev_status" = k) from fun he => h3 he.symm),
        if_neg (show ¬("_retry_at" = k) from fun he => h2 he.symm),
        if_neg (show ¬("_retry_n" = k) from fun he => h1 he.symm)]
      exact dictGet_dictMerge_none k row.payload p hget
  · intro row hrow hneg
    exact reserve_order_false_of_active tbl cid b s r sd p now row hrow hneg
  · intro htrue ops hops b2 s2 r2 sd2 p2 now2
    have hres : toLowerStr "reserved" ∉ negativeStatuses := by decide
    have hinv : ∃ row, (reserve_order tbl cid b s r sd p now).2 cid = some row ∧
        toLowerStr row.status ∉ negativeStatuses := by
      cases hrow : tbl cid with
      | none =>
          refine ⟨{ broker := b, symbol := s, role := r, side := sd,
                    status := "reserved", order_id := none, payload := p }, ?_, hres⟩
          unfold reserve_order
          rw [hrow]
          simp
      | some row =>
          by_cases hs : toLowerStr row.status ∈ negativeStatuses
          · refine ⟨{ row with
                status := "reserved",
                order_id := none,
                payload := dictSet "_prev_status" (Json.str (toLowerStr row.status))
                  (dictSet "_retry_at" (Json.str now)
                    (dictSet "_retry_n" (Json.num (getRetryN row.payload + 1))
                      (dictMerge row.payload p))) }, ?_, hres⟩
            unfold reserve_order
            rw [hrow]
            simp only [if_pos hs]
            simp
          · exfalso
            unfold reserve_order at htrue
            rw [hrow] at htrue
            simp [hs] at htrue
    have h2 := applyLedgerOps_preserves_active cid ops _ hops hinv
    obtain ⟨row, hrow2, hneg2⟩ := h2
    exact (reserve_order_false_of_active _ cid b2 s2 r2 sd2 p2 now2 row hrow2 hneg2).1

theorem c1_reserve_order_idempotency_witness :
    ((reserve_order (fun _ => none) "cid1" "bitget" "BTCUSDT" "entry" "buy" [] "t0").1 = true ∧
      (reserve_order (fun _ => none) "cid1" "bitget" "BTCUSDT" "entry" "buy" [] "t0").2 "cid1" =
        some { broker := "bitget", symbol := "BTCUSDT", role := "entry", side := "buy",
               status := "reserved", order_id := none, payload := [] }) ∧
    (reserve_order
        (applyLedgerOps
          (reserve_order (fun _ => none) "cid1" "bitget" "BTCUSDT" "entry" "buy" [] "t0").2
          [LedgerOp.markSubmitted "cid1" "oid" [] "t1",
           LedgerOp.markFinal "cid1" "filled" [] "t2"])
        "cid1" "bitget" "BTCUSDT" "entry" "buy" [] "t3").1 = false := by
  have h := c1_reserve_order_idempotency (fun _ => none) "cid1" "bitget" "BTCUSDT"
    "entry" "buy" [] "t0"
  have h1 := h.1 rfl
  have hops : ∀ op ∈ [LedgerOp.markSubmitted "cid1" "oid" [] "t1",
      LedgerOp.markFinal "cid1" "filled" [] "t2"], ¬ isNegativeTransition "cid1" op := by
    intro op hop
    have hf : toLowerStr "filled" ∉ negativeStatuses := by decide
    fin_cases hop
    · simp [isNegativeTransition]
    · simp [isNegativeTransition, hf]
  exact ⟨h1, h.2.2.2 h1.1 _ hops "bitget" "BTCUSDT" "entry" "buy" [] "t3"⟩


theorem trailWatermark_sl (cp : ℚ) (prot : Prot) : (trailWatermark cp prot).sl = prot.sl := by
  unfold trailWatermark
  split_ifs <;> rfl

theorem trailProt2_sl (cp : ℚ) (prot : Prot) (le : ℚ) :
    (trailProt2 cp prot le).sl = prot.sl := by
  simp only [trailProt2]
  split_ifs <;> simp [trailWatermark_sl]

theorem trailApply_cases (cfg : TrailCfg) (mode mv : String)
    (cp mg sl atr qty now : ℚ) (p2 : Prot) (cand : Option ℚ) :
    ((trailApply cfg mode mv cp mg sl atr qty now p2 cand).2 = false ∧
      (trailApply cfg mode mv cp mg sl atr qty now p2 cand).1.sl = p2.sl) ∨
    ((trailApply cfg mode mv cp mg sl atr qty now p2 cand).2 = true ∧
      (0 < qty → sl + atr * cfg.min_step_atr
        < (trailApply cfg mode mv cp mg sl atr qty now p2 cand).1.sl)) := by
  unfold trailApply
  cases cand with
  | none => exact Or.inl ⟨rfl, rfl⟩
  | some c =>
      dsimp only
      split_ifs with hq hstop hsyn hlive
      · exact Or.inl ⟨rfl, rfl⟩
      · refine Or.inr ⟨rfl, fun _ => ?_⟩
        simpa using not_le.mp hstop
      · refine Or.inr ⟨rfl, fun _ => ?_⟩
        simpa using not_le.mp hstop
      · exact Or.inl ⟨rfl, rfl⟩
      · exact Or.inl ⟨rfl, rfl⟩
      · refine Or.inr ⟨rfl, fun hq2 => absurd hq2 (by assumption)⟩
      · refine Or.inr ⟨rfl, fun hq2 => absurd hq2 (by assumption)⟩
      · exact Or.inl ⟨rfl, rfl⟩

theorem update_dynamic_trailing_cases (cfg : TrailCfg) (ks : Bool) (mv : String)
    (cp : ℚ) (prot : Prot) (w : Bool) (now le : ℚ) :
    ((update_dynamic_trailing cfg ks mv cp prot w now le).2 = false ∧
      (update_dynamic_trailing cfg ks mv cp prot w now le).1.sl = prot.sl) ∨
    ((update_dynamic_trailing cfg ks mv cp prot w now le).2 = true ∧ 0 < prot.qty ∧
      0 < prot.atr ∧
      prot.sl + prot.atr * cfg.min_step_atr
        < (update_dynamic_trailing cfg ks mv cp prot w now le).1.sl) := by
  unfold update_dynamic_trailing
  split_ifs with h1 h2 h3 h4 h5 h6 h7
  all_goals try exact Or.inl ⟨rfl, rfl⟩
  · push_neg at h5
    obtain ⟨hsl, hatr, hqty⟩ := h5
    rcases trailApply_cases cfg (trailMode prot) mv cp (trailMinGap cfg cp prot.atr)
        prot.sl prot.atr prot.qty now (trailProt2 cp prot le)
        (trailCand cfg cp prot w le) with ⟨hf, heq⟩ | ⟨ht, himp⟩
    · exact Or.inl ⟨hf, by rw [heq, trailProt2_sl]⟩
    · exact Or.inr ⟨ht, hqty, hatr, himp hqty⟩

/-- C3: for a synthetic protection record the dynamic-trailing update
never moves the stop adversely: with qty > 0 the stored sl never
decreases, with qty < 0 it is unchanged (shorts fail the qty guard and
never trail at all, so non-increase holds with equality); the update is
applied only when the clamped candidate improves the old sl by strictly
more than min_step_atr times atr, so an improvement of exactly that step
fails the strict check, returns False and leaves the sl unchanged.
Requires the configured min_step_atr to be non-negative, as its default
0.10 and any sane configuration are. -/
theorem c3_trailing_never_adverse (cfg : TrailCfg) (ks : Bool) (mv : String)
    (cp : ℚ) (prot : Prot) (w : Bool) (now le : ℚ)
    (hmode : prot.mode = "synthetic") (hstep : 0 ≤ cfg.min_step_atr) :
    (0 < prot.qty →
      prot.sl ≤ (update_dynamic_trailing cfg ks mv cp prot w now le).1.sl) ∧
    (prot.qty < 0 →
      (update_dynamic_trailing cfg ks mv cp prot w now le).1.sl = prot.sl) ∧
    ((update_dynamic_trailing cfg ks mv cp prot w now le).2 = true →
      prot.sl + cfg.min_step_atr * prot.atr
        < (update_dynamic_trailing cfg ks mv cp prot w now le).1.sl) ∧
    ((update_dynamic_trailing cfg ks mv cp prot w now le).2 = false →
      (update_dynamic_trailing cfg ks mv cp prot w now le).1.sl = prot.sl) := by
  rcases update_dynamic_trailing_cases cfg ks mv cp prot w now le with
    ⟨hf, heq⟩ | ⟨ht, hqty, hatr, himp⟩
  · refine ⟨fun _ => heq.ge, fun _ => heq, fun htr => ?_, fun _ => heq⟩
    rw [hf] at htr
    exact absurd htr (by simp)
  · refine ⟨fun _ => ?_, fun hlt => absurd hqty (by linarith), fun _ => ?_, fun hff => ?_⟩
    · have hnn : 0 ≤ prot.atr * cfg.min_step_atr := mul_nonneg hatr.le hstep
      linarith
    · rw [mul_comm cfg.min_step_atr prot.atr]
      exact himp
    · rw [ht] at hff
      exact absurd hff (by simp)

theorem c3_trailing_never_adverse_witness :
    (98 : ℚ) ≤ (update_dynamic_trailing
      { enabled := true, breakeven_atr := 1, breakeven_buffer_atr := 1 / 20,
        trigger_dist_atr := 5 / 2, trail_offset_atr := 4 / 5, min_step_atr := 1 / 10,
        cooldown_s := 5, min_gap_pct := 1 / 1000 } false "paper" 104
      { mode := "synthetic", trade_id := "t", sl := 98, tp := 0, atr := 1, qty := 1,
        entry_price := 100, max_price := 0, min_price := 0, trail_last_ts := 0,
        trail_count := 0 } false 1000 0).1.sl := by
  have h := c3_trailing_never_adverse
    { enabled := true, breakeven_atr := 1, breakeven_buffer_atr := 1 / 20,
      trigger_dist_atr := 5 / 2, trail_offset_atr := 4 / 5, min_step_atr := 1 / 10,
      cooldown_s := 5, min_gap_pct := 1 / 1000 } false "paper" 104
    { mode := "synthetic", trade_id := "t", sl := 98, tp := 0, atr := 1, qty := 1,
      entry_price := 100, max_price := 0, min_price := 0, trail_last_ts := 0,
      trail_count := 0 } false 1000 0 rfl (by norm_num)
  exact h.1 (by norm_num)

theorem check_synthetic_exit_no_time (prot : SynthProt) (qty_pos cp : ℚ)
    (cap : Bool) (ages maxs : ℚ) (rt : Bool) (st : Option BrokerOrderResult)
    (r : Bool) (s : Option BrokerOrderResult) (mk : String → String)
    (hq : 0 < qty_pos) (hnotime : ¬(cap = true ∧ ages > maxs)) :
    check_synthetic_exit prot qty_pos cp cap ages maxs rt st r s mk
      = exitHitStep prot qty_pos cp [] r s mk := by
  unfold check_synthetic_exit
  dsimp only
  rw [if_neg (not_le.mpr hq), if_neg hnotime, if_neg (fun h => hnotime h.1)]

theorem exitOutcome_spec (prot : SynthProt) (qty_pos cp : ℚ) (reason cid : String)
    (r : Bool) (s : Option BrokerOrderResult) :
    ((exitOutcome prot qty_pos cp [] reason cid r s).reservations = [(cid, reason)]) ∧
    (r = false → exitOutcome prot qty_pos cp [] reason cid r s
      = { noExitEffects with reservations := [(cid, reason)] }) ∧
    (r = true → (exitOutcome prot qty_pos cp [] reason cid r s).orders
      = [{ symbol := "", side := "sell",
           quantity := if prot.qty = 0 then qty_pos else prot.qty,
           order_type := "market", client_id := some cid }]) ∧
    (r = true → ∀ res, s = some res → toLowerStr res.status = "filled" →
      (exitOutcome prot qty_pos cp [] reason cid r s).removed = true ∧
      (exitOutcome prot qty_pos cp [] reason cid r s).closed
        = prot.trade_id.map (fun _ => ((if res.price = 0 then cp else res.price), reason))) ∧
    (r = true → ∀ res, s = some res → toLowerStr res.status ≠ "filled" →
      (exitOutcome prot qty_pos cp [] reason cid r s).removed = false ∧
      (exitOutcome prot qty_pos cp [] reason cid r s).closed = none) ∧
    (r = true → s = none →
      (exitOutcome prot qty_pos cp [] reason cid r s).removed = false ∧
      (exitOutcome prot qty_pos cp [] reason cid r s).closed = none) := by
  cases r with
  | false =>
      refine ⟨by simp [exitOutcome], fun _ => by simp [exitOutcome], ?_, ?_, ?_, ?_⟩ <;>
        intro h <;> exact absurd h (by simp)
  | true =>
      cases s with
      | none =>
          refine ⟨by simp [exitOutcome], fun h => absurd h (by simp), fun _ => ?_,
            fun _ res hres => absurd hres (by simp),
            fun _ res hres => absurd hres (by simp), fun _ _ => ?_⟩
          · simp [exitOutcome]
          · simp [exitOutcome, noExitEffects]
      | some res =>
          by_cases hf : toLowerStr res.status = "filled"
          · refine ⟨?_, fun h => absurd h (by simp), fun _ => ?_,
              fun _ res2 hres2 _ => ?_, fun _ res2 hres2 hne => ?_,
              fun _ hnone => by simp at hnone⟩
            · simp [exitOutcome, hf]
            · simp [exitOutcome, hf]
            · obtain rfl : res2 = res := by simpa using hres2.symm
              constructor <;> simp [exitOutcome, hf]
            · obtain rfl : res2 = res := by simpa using hres2.symm
              exact absurd hf hne
          · refine ⟨?_, fun h => absurd h (by simp), fun _ => ?_,
              fun _ res2 hres2 hff => ?_, fun _ res2 hres2 _ => ?_,
              fun _ hnone => by simp at hnone⟩
            · simp [exitOutcome, hf]
            · simp [exitOutcome, hf]
            · obtain rfl : res2 = res := by simpa using hres2.symm
              exact absurd hff hf
            · obtain rfl : res2 = res := by simpa using hres2.symm
              constructor <;> simp [exitOutcome, hf]

theorem exitHitStep_quiet (prot : SynthProt) (qty_pos cp : ℚ) (r : Bool)
    (s : Option BrokerOrderResult) (mk : String → String)
    (h1 : ¬(prot.sl > 0 ∧ cp ≤ prot.sl)) (h2 : ¬(prot.tp > 0 ∧ cp ≥ prot.tp)) :
    exitHitStep prot qty_pos cp [] r s mk = noExitEffects := by
  unfold exitHitStep
  rw [if_pos (by tauto)]
  rfl

theorem exitHitStep_sl (prot : SynthProt) (qty_pos cp : ℚ) (r : Bool)
    (s : Option BrokerOrderResult) (mk : String → String)
    (hhit : prot.sl > 0 ∧ cp ≤ prot.sl) :
    exitHitStep prot qty_pos cp [] r s mk
      = exitOutcome prot qty_pos cp [] "sl" (prot.sl_client_id.getD (mk "sl")) r s := by
  unfold exitHitStep
  rw [if_neg (not_not_intro (Or.inl hhit)), if_pos hhit, if_pos hhit]

theorem exitHitStep_tp (prot : SynthProt) (qty_pos cp : ℚ) (r : Bool)
    (s : Option BrokerOrderResult) (mk : String → String)
    (hmiss : ¬(prot.sl > 0 ∧ cp ≤ prot.sl)) (hhit : prot.tp > 0 ∧ cp ≥ prot.tp) :
    exitHitStep prot qty_pos cp [] r s mk
      = exitOutcome prot qty_pos cp [] "tp" (prot.tp_client_id.getD (mk "tp")) r s := by
  unfold exitHitStep
  rw [if_neg (not_not_intro (Or.inr hhit)), if_neg hmiss, if_neg hmiss]

/-- C2: for a synthetic protection entry with stored sl > 0 and tp > 0
on a long position (positive venue quantity; sl below tp as armed for a
long), absent a time exit, the check triggers a stop-loss exit exactly
when the price is at or below sl and a take-profit exit exactly when it
is at or above tp (a price strictly between them leaves every effect
empty); on a trigger it reserves the exit under the role-specific client
id (the stored sl/tp client id, else one minted for that role), submits
a market sell when the reservation succeeds, closes the trade at the
executed price (falling back to the polled price when the result price
is 0) and removes the protection entry exactly when the returned status
lowercases to filled; any other status, and a raised submit, leave the
protection entry in place. -/
theorem c2_synthetic_protective_exit (prot : SynthProt) (qty_pos cp : ℚ)
    (cap : Bool) (ages maxs : ℚ) (rt : Bool) (st : Option BrokerOrderResult)
    (r : Bool) (s : Option BrokerOrderResult) (mk : String → String) (tid : String)
    (hq : 0 < qty_pos) (hsl : 0 < prot.sl) (hsltp : prot.sl < prot.tp)
    (hnotime : ¬(cap = true ∧ ages > maxs)) (htid : prot.trade_id = some tid) :
    (prot.sl < cp → cp < prot.tp →
      check_synthetic_exit prot qty_pos cp cap ages maxs rt st r s mk = noExitEffects) ∧
    (∀ reason cidStored,
      ((cp ≤ prot.sl ∧ reason = "sl" ∧ cidStored = prot.sl_client_id) ∨
        (prot.sl < cp ∧ prot.tp ≤ cp ∧ reason = "tp" ∧ cidStored = prot.tp_client_id)) →
      (check_synthetic_exit prot qty_pos cp cap ages maxs rt st r s mk).reservations
          = [(cidStored.getD (mk reason), reason)] ∧
      (r = false →
        check_synthetic_exit prot qty_pos cp cap ages maxs rt st r s mk
          = { noExitEffects with
              reservations := [(cidStored.getD (mk reason), reason)] }) ∧
      (r = true →
        (check_synthetic_exit prot qty_pos cp cap ages maxs rt st r s mk).orders
          = [{ symbol := "", side := "sell",
               quantity := if prot.qty = 0 then qty_pos else prot.qty,
               order_type := "market",
               client_id := some (cidStored.getD (mk reason)) }]) ∧
      (r = true → ∀ res, s = some res → toLowerStr res.status = "filled" →
        (check_synthetic_exit prot qty_pos cp cap ages maxs rt st r s mk).removed = true ∧
        (check_synthetic_exit prot qty_pos cp cap ages maxs rt st r s mk).closed
          = some ((if res.price = 0 then cp else res.price), reason)) ∧
      (r = true → ∀ res, s = some res → toLowerStr res.status ≠ "filled" →
        (check_synthetic_exit prot qty_pos cp cap ages maxs rt st r s mk).removed = false ∧
        (check_synthetic_exit prot qty_pos cp cap ages maxs rt st r s mk).closed = none) ∧
      (r = true → s = none →
        (check_synthetic_exit prot qty_pos cp cap ages maxs rt st r s mk).removed = false ∧
        (check_synthetic_exit prot qty_pos cp cap ages maxs rt st r s mk).closed = none)) := by
  have hE := check_synthetic_exit_no_time prot qty_pos cp cap ages maxs rt st r s mk hq hnotime
  constructor
  · intro h1 h2
    rw [hE]
    exact exitHitStep_quiet prot qty_pos cp r s mk
      (fun hh => absurd hh.2 (not_le.mpr h1)) (fun hh => absurd hh.2 (not_le.mpr h2))
  · intro reason cidStored hsel
    have hkey : check_synthetic_exit prot qty_pos cp cap ages maxs rt st r s mk
        = exitOutcome prot qty_pos cp [] reason (cidStored.getD (mk reason)) r s := by
      rcases hsel with ⟨hcp, hr, hc⟩ | ⟨hcp1, hcp2, hr, hc⟩
      · subst hr; subst hc
        rw [hE]
        exact exitHitStep_sl prot qty_pos cp r s mk ⟨hsl, hcp⟩
      · subst hr; subst hc
        rw [hE]
        exact exitHitStep_tp prot qty_pos cp r s mk
          (fun hh => absurd hh.2 (not_le.mpr hcp1)) ⟨lt_trans hsl hsltp, hcp2⟩
    have hspec := exitOutcome_spec prot qty_pos cp reason (cidStored.getD (mk reason)) r s
    rw [hkey]
    refine ⟨hspec.1, hspec.2.1, hspec.2.2.1, ?_, hspec.2.2.2.2.1, hspec.2.2.2.2.2⟩
    intro hr res hres hf
    have h4 := hspec.2.2.2.1 hr res hres hf
    refine ⟨h4.1, ?_⟩
    rw [h4.2, htid]
    rfl

theorem c2_synthetic_protective_exit_witness :
    check_synthetic_exit
        { sl := 100, tp := 110, qty := 2, sl_client_id := some "slcid",
          tp_client_id := none, trade_id := some "tr", signal_id := "sig",
          broker := "bitget" }
        2 105 false 0 0 true none true
        (some { order_id := "o1", status := "FILLED", price := 99 })
        (fun role => "mk-" ++ role)
      = noExitEffects ∧
    (check_synthetic_exit
        { sl := 100, tp := 110, qty := 2, sl_client_id := some "slcid",
          tp_client_id := none, trade_id := some "tr", signal_id := "sig",
          broker := "bitget" }
        2 99 false 0 0 true none true
        (some { order_id := "o1", status := "FILLED", price := 99 })
        (fun role => "mk-" ++ role)).removed = true ∧
    (check_synthetic_exit
        { sl := 100, tp := 110, qty := 2, sl_client_id := some "slcid",
          tp_client_id := none, trade_id := some "tr", signal_id := "sig",
          broker := "bitget" }
        2 99 false 0 0 true none true
        (some { order_id := "o1", status := "FILLED", price := 99 })
        (fun role => "mk-" ++ role)).closed = some ((99 : ℚ), "sl") := by
  have h := c2_synthetic_protective_exit
    { sl := 100, tp := 110, qty := 2, sl_client_id := some "slcid",
      tp_client_id := none, trade_id := some "tr", signal_id := "sig",
      broker := "bitget" }
    2 105 false 0 0 true none true
    (some { order_id := "o1", status := "FILLED", price := 99 })
    (fun role => "mk-" ++ role) "tr"
    (by norm_num) (by norm_num) (by norm_num) (by simp) rfl
  have h2 := c2_synthetic_protective_exit
    { sl := 100, tp := 110, qty := 2, sl_client_id := some "slcid",
      tp_client_id := none, trade_id := some "tr", signal_id := "sig",
      broker := "bitget" }
    2 99 false 0 0 true none true
    (some { order_id := "o1", status := "FILLED", price := 99 })
    (fun role => "mk-" ++ role) "tr"
    (by norm_num) (by norm_num) (by norm_num) (by simp) rfl
  have hsel := (h2.2 "sl" (some "slcid") (Or.inl ⟨by norm_num, rfl, rfl⟩))
  have h4 := hsel.2.2.2.1 rfl { order_id := "o1", status := "FILLED", price := 99 } rfl
    (by decide)
  refine ⟨h.1 (by norm_num) (by norm_num), h4.1, ?_⟩
  have := h4.2
  simpa using this

theorem openCount_append_le (l : List String) (s : String) :
    openCount (l ++ [s]) ≤ openCount l + 1 := by
  unfold openCount
  rw [List.filter_append, List.toFinset_append]
  by_cases hs : s = ""
  · simp [hs]
  · refine le_trans (Finset.card_union_le _ _) ?_
    simp [hs]

theorem run_strategy_step_spec (threshold : ℚ) (max_pos : ℤ) (hmax : 0 < max_pos)
    (st : CycleState) (it : SignalItem) :
    (∀ s c, CycleEvent.buy s c ∈ (run_strategy_step threshold max_pos st it).2 →
        c = openCount st.open_symbols ∧ (c : ℤ) < max_pos) ∧
    ((openCount (run_strategy_step threshold max_pos st it).1.open_symbols : ℤ)
      ≤ max (openCount st.open_symbols : ℤ) max_pos) := by
  unfold run_strategy_step
  split_ifs with h1 h2 h3 h4 h5 h6 h7 <;> dsimp only <;>
    refine ⟨fun s c hmem => ?_, ?_⟩ <;>
    solve
      | (exfalso; simp at hmem)
      | (have hmem2 : s = it.symbol ∧ c = openCount st.open_symbols := by
           simpa using hmem
         obtain ⟨hs, hc⟩ := hmem2
         subst hc
         exact ⟨rfl, by omega⟩)
      | exact le_max_left _ _
      | (refine le_trans ?_ (le_max_right _ _)
         have hb := openCount_append_le st.open_symbols it.symbol
         omega)

/-- C7: in a run_strategy cycle with a positive MAX_OPEN_POSITIONS cap,
execute_trade(buy) is called only while the tracked count of open slots
(the deduplicated non-empty union of venue-position symbols and open
ledger-trade symbols, as maintained by the loop) is strictly below the
cap, and the count of open slots after the cycle never exceeds the
larger of its initial value and the cap, so new entries never push the
slot count past the cap. -/
theorem c7_max_open_positions_gate (threshold : ℚ) (max_pos : ℤ)
    (items : List SignalItem) (st : CycleState) (hmax : 0 < max_pos) :
    (∀ ev ∈ (run_strategy_cycle threshold max_pos st items).2,
      ∀ s c, ev = CycleEvent.buy s c → (c : ℤ) < max_pos) ∧
    ((openCount (run_strategy_cycle threshold max_pos st items).1.open_symbols : ℤ)
      ≤ max (openCount st.open_symbols : ℤ) max_pos) := by
  induction items generalizing st with
  | nil =>
      refine ⟨fun ev hev => by simp [run_strategy_cycle] at hev, ?_⟩
      simp only [run_strategy_cycle]
      exact le_max_left _ _
  | cons it rest ih =>
      have hstep := run_strategy_step_spec threshold max_pos hmax st it
      have hrest := ih (run_strategy_step threshold max_pos st it).1
      constructor
      · intro ev hev s c hevc
        subst hevc
        simp only [run_strategy_cycle, List.mem_append] at hev
        rcases hev with h | h
        · exact (hstep.1 s c h).2
        · exact hrest.1 _ h s c rfl
      · simp only [run_strategy_cycle]
        exact le_trans hrest.2 (max_le hstep.2 (le_max_right _ _))

theorem c7_max_open_positions_gate_witness :
    (∀ ev ∈ (run_strategy_cycle (3 / 5) 2
        { open_symbols := ["ETHUSDT"], last_seen := fun _ => none }
        [{ symbol := "BTCUSDT", signal_id := "sig1", p_long := 7 / 10, p_short := 0,
           pos_qty := 0, trade_opens := true },
         { symbol := "SOLUSDT", signal_id := "sig2", p_long := 9 / 10, p_short := 0,
           pos_qty := 0, trade_opens := true }]).2,
      ∀ s c, ev = CycleEvent.buy s c → (c : ℤ) < 2) ∧
    ((openCount (run_strategy_cycle (3 / 5) 2
        { open_symbols := ["ETHUSDT"], last_seen := fun _ => none }
        [{ symbol := "BTCUSDT", signal_id := "sig1", p_long := 7 / 10, p_short := 0,
           pos_qty := 0, trade_opens := true },
         { symbol := "SOLUSDT", signal_id := "sig2", p_long := 9 / 10, p_short := 0,
           pos_qty := 0, trade_opens := true }]).1.open_symbols : ℤ)
      ≤ max ((openCount ["ETHUSDT"] : ℤ)) 2) := by
  have h := c7_max_open_positions_gate (3 / 5) 2
    [{ symbol := "BTCUSDT", signal_id := "sig1", p_long := 7 / 10, p_short := 0,
       pos_qty := 0, trade_opens := true },
     { symbol := "SOLUSDT", signal_id := "sig2", p_long := 9 / 10, p_short := 0,
       pos_qty := 0, trade_opens := true }]
    { open_symbols := ["ETHUSDT"], last_seen := fun _ => none } (by norm_num)
  exact h

theorem skipWs_append_ws (w s : List Char) (hw : ∀ c ∈ w, isWsChar c = true) :
    skipWs (w ++ s) = skipWs s := by
  induction w with
  | nil => rfl
  | cons c t ih =>
      have hc : isWsChar c = true := hw c (by simp)
      simp only [List.cons_append, skipWs, hc, if_pos]
      exact ih (fun c2 h2 => hw c2 (by simp [h2]))

theorem skipWs_cons_nonws (c : Char) (s : List Char) (hc : isWsChar c = false) :
    skipWs (c :: s) = c :: s := by
  simp [skipWs, hc]

theorem pad_ws (n : ℕ) : ∀ c ∈ pad n, isWsChar c = true := by
  intro c hc
  rw [pad, List.mem_replicate] at hc
  rw [hc.2]
  decide

theorem parseVal_ws (fuel : ℕ) (w s : List Char) (hw : ∀ c ∈ w, isWsChar c = true) :
    parseVal fuel (w ++ s) = parseVal fuel s := by
  cases fuel with
  | zero => rfl
  | succ n =>
      unfold parseVal
      rw [skipWs_append_ws w s hw]

theorem parseArrItems_ws (fuel : ℕ) (w s : List Char)
    (hw : ∀ c ∈ w, isWsChar c = true) :
    parseArrItems fuel (w ++ s) = parseArrItems fuel s := by
  cases fuel with
  | zero => rfl
  | succ n =>
      unfold parseArrItems
      rw [parseVal_ws n w s hw]

theorem parseObjItems_ws (fuel : ℕ) (w s : List Char)
    (hw : ∀ c ∈ w, isWsChar c = true) :
    parseObjItems fuel (w ++ s) = parseObjItems fuel s := by
  cases fuel with
  | zero => rfl
  | succ n =>
      unfold parseObjItems
      rw [skipWs_append_ws w s hw]

theorem isDigitChar_digitChar (d : ℕ) (hd : d < 10) :
    isDigitChar (digitChar d) = true := by
  interval_cases d <;> decide

theorem digitChar_toNat (d : ℕ) (hd : d < 10) : (digitChar d).toNat - 48 = d := by
  interval_cases d <;> decide

theorem not_ws_of_digit (c : Char) (h : isDigitChar c = true) : isWsChar c = false := by
  rw [Bool.eq_false_iff]
  intro hw
  simp only [isWsChar, decide_eq_true_eq] at hw
  rcases hw with rfl | rfl | rfl | rfl <;> exact absurd h (by decide)

theorem parseDigits_spec (ds : List Char) :
    ∀ (acc : ℕ) (rest : List Char), (∀ c ∈ ds, isDigitChar c = true) →
    (∀ c ∈ rest.head?, isDigitChar c = false) →
    parseDigits (ds ++ rest) acc
      = (ds.foldl (fun a c => a * 10 + (c.toNat - 48)) acc, rest) := by
  induction ds with
  | nil =>
      intro acc rest _ hrest
      cases rest with
      | nil => rfl
      | cons c t =>
          have hc : isDigitChar c = false := hrest c (by simp)
          simp [parseDigits, hc]
  | cons c t ih =>
      intro acc rest hds hrest
      have hc : isDigitChar c = true := hds c (by simp)
      simp only [List.cons_append, parseDigits, hc, if_pos, List.foldl_cons]
      exact ih _ rest (fun c2 h2 => hds c2 (by simp [h2])) hrest

theorem printNatAux_digits (fuel : ℕ) :
    ∀ n, ∀ c ∈ printNatAux fuel n, isDigitChar c = true := by
  induction fuel with
  | zero => intro n c hc; simp [printNatAux] at hc
  | succ f ih =>
      intro n c hc
      unfold printNatAux at hc
      split_ifs at hc with hn
      · simp at hc
      · rw [List.mem_append] at hc
        rcases hc with h | h
        · exact ih _ c h
        · simp only [List.mem_singleton] at h
          rw [h]
          exact isDigitChar_digitChar _ (Nat.mod_lt _ (by norm_num))

theorem printNatAux_foldl (fuel : ℕ) :
    ∀ n acc, n ≤ fuel →
      (printNatAux fuel n).foldl (fun a c => a * 10 + (c.toNat - 48)) acc
        = acc * 10 ^ (printNatAux fuel n).length + n := by
  induction fuel with
  | zero =>
      intro n acc hn
      interval_cases n
      simp [printNatAux]
  | succ f ih =>
      intro n acc hn
      unfold printNatAux
      split_ifs with hn0
      · simp [hn0]
      · rw [List.foldl_append, List.length_append]
        have hdiv : n / 10 ≤ f := by
          have h1 : n / 10 < n := Nat.div_lt_self (Nat.pos_of_ne_zero hn0) (by norm_num)
          omega
        rw [ih (n / 10) acc hdiv]
        simp only [List.foldl_cons, List.foldl_nil, List.length_singleton]
        rw [digitChar_toNat _ (Nat.mod_lt _ (by norm_num))]
        rw [pow_succ]
        have := Nat.div_add_mod n 10
        ring_nf
        omega

theorem printNatAux_ne_nil (fuel n : ℕ) (hn : 0 < n) (hf : n ≤ fuel) :
    printNatAux fuel n ≠ [] := by
  cases fuel with
  | zero => omega
  | succ f =>
      unfold printNatAux
      rw [if_neg (by omega)]
      simp

theorem parseNat_printNat (n : ℕ) (rest : List Char)
    (hrest : ∀ c ∈ rest.head?, isDigitChar c = false) :
    parseNat (printNat n ++ rest) = some (n, rest) := by
  by_cases hn : n = 0
  · subst hn
    have hred : parseNat ('0' :: rest)
        = if isDigitChar '0' = true then some (parseDigits rest ('0'.toNat - 48)) else none := rfl
    show parseNat ('0' :: rest) = some (0, rest)
    rw [hred, if_pos (by decide)]
    have h := parseDigits_spec [] ('0'.toNat - 48) rest (by simp) hrest
    simp only [List.nil_append] at h
    rw [h]
    simp
  · have hne := printNatAux_ne_nil n n (Nat.pos_of_ne_zero hn) (le_refl n)
    unfold printNat
    rw [if_neg hn]
    cases hpr : printNatAux n n with
    | nil => exact absurd hpr hne
    | cons c t =>
        have hdigs := printNatAux_digits n n
        rw [hpr] at hdigs
        have hc : isDigitChar c = true := hdigs c (by simp)
        have hred : parseNat (c :: (t ++ rest))
            = if isDigitChar c = true then some (parseDigits (t ++ rest) (c.toNat - 48))
              else none := rfl
        show parseNat (c :: (t ++ rest)) = some (n, rest)
        rw [hred, if_pos hc]
        have h := parseDigits_spec t (c.toNat - 48) rest
          (fun c2 h2 => hdigs c2 (by simp [h2])) hrest
        rw [h]
        have hfold := printNatAux_foldl n n 0 (le_refl n)
        rw [hpr] at hfold
        simp only [List.foldl_cons] at hfold
        simp only [Nat.zero_mul, Nat.zero_add] at hfold
        rw [hfold]

theorem expectChars_append (es rest : List Char) :
    expectChars es (es ++ rest) = some rest := by
  induction es with
  | nil => rfl
  | cons e t ih => simp [expectChars, ih]

theorem hexVal_hexChar (n : ℕ) (hn : n < 16) : hexVal (hexChar n) = some n := by
  interval_cases n <;> decide

theorem psb_quote (z : List Char) : parseStringBody ('"' :: z) = some ([], z) := by
  rw [parseStringBody.eq_def]
  dsimp only
  rw [if_pos (rfl : ('"' : Char) = '"')]

theorem psb_bs_quote (z : List Char) :
    parseStringBody ('\\' :: '"' :: z)
      = (parseStringBody z).map (fun r => ('"' :: r.1, r.2)) := by
  rw [parseStringBody.eq_def]
  dsimp only
  rw [if_neg (show ¬(('\\' : Char) = '"') from by decide),
      if_pos (rfl : ('\\' : Char) = '\\'),
      if_neg (show ¬(('"' : Char) = 'u') from by decide),
      if_pos (rfl : ('"' : Char) = '"')]

theorem psb_bs_bs (z : List Char) :
    parseStringBody ('\\' :: '\\' :: z)
      = (parseStringBody z).map (fun r => ('\\' :: r.1, r.2)) := by
  rw [parseStringBody.eq_def]
  dsimp only
  rw [if_neg (show ¬(('\\' : Char) = '"') from by decide),
      if_pos (rfl : ('\\' : Char) = '\\'),
      if_neg (show ¬(('\\' : Char) = 'u') from by decide),
      if_neg (show ¬(('\\' : Char) = '"') from by decide),
      if_pos (rfl : ('\\' : Char) = '\\')]

theorem psb_bs_n (z : List Char) :
    parseStringBody ('\\' :: 'n' :: z)
      = (parseStringBody z).map (fun r => (Char.ofNat 10 :: r.1, r.2)) := by
  rw [parseStringBody.eq_def]
  dsimp only
  rw [if_neg (show ¬(('\\' : Char) = '"') from by decide),
      if_pos (rfl : ('\\' : Char) = '\\'),
      if_neg (show ¬(('n' : Char) = 'u') from by decide),
      if_neg (show ¬(('n' : Char) = '"') from by decide),
      if_neg (show ¬(('n' : Char) = '\\') from by decide),
      if_neg (show ¬(('n' : Char) = '/') from by decide),
      if_neg (show ¬(('n' : Char) = 'b') from by decide),
      if_neg (show ¬(('n' : Char) = 'f') from by decide),
      if_pos (rfl : ('n' : Char) = 'n')]

theorem psb_bs_t (z : List Char) :
    parseStringBody ('\\' :: 't' :: z)
      = (parseStringBody z).map (fun r => (Char.ofNat 9 :: r.1, r.2)) := by
  rw [parseStringBody.eq_def]
  dsimp only
  rw [if_neg (show ¬(('\\' : Char) = '"') from by decide),
      if_pos (rfl : ('\\' : Char) = '\\'),
      if_neg (show ¬(('t' : Char) = 'u') from by decide),
      if_neg (show ¬(('t' : Char) = '"') from by decide),
      if_neg (show ¬(('t' : Char) = '\\') from by decide),
      if_neg (show ¬(('t' : Char) = '/') from by decide),
      if_neg (show ¬(('t' : Char) = 'b') from by decide),
      if_neg (show ¬(('t' : Char) = 'f') from by decide),
      if_neg (show ¬(('t' : Char) = 'n') from by decide),
      if_neg (show ¬(('t' : Char) = 'r') from by decide),
      if_pos (rfl : ('t' : Char) = 't')]

theorem psb_bs_r (z : List Char) :
    parseStringBody ('\\' :: 'r' :: z)
      = (parseStringBody z).map (fun r => (Char.ofNat 13 :: r.1, r.2)) := by
  rw [parseStringBody.eq_def]
  dsimp only
  rw [if_neg (show ¬(('\\' : Char) = '"') from by decide),
      if_pos (rfl : ('\\' : Char) = '\\'),
      if_neg (show ¬(('r' : Char) = 'u') from by decide),
      if_neg (show ¬(('r' : Char) = '"') from by decide),
      if_neg (show ¬(('r' : Char) = '\\') from by decide),
      if_neg (show ¬(('r' : Char) = '/') from by decide),
      if_neg (show ¬(('r' : Char) = 'b') from by decide),
      if_neg (show ¬(('r' : Char) = 'f') from by decide),
      if_neg (show ¬(('r' : Char) = 'n') from by decide),
      if_pos (rfl : ('r' : Char) = 'r')]

theorem psb_bs_b (z : List Char) :
    parseStringBody ('\\' :: 'b' :: z)
      = (parseStringBody z).map (fun r => (Char.ofNat 8 :: r.1, r.2)) := by
  rw [parseStringBody.eq_def]
  dsimp only
  rw [if_neg (show ¬(('\\' : Char) = '"') from by decide),
      if_pos (rfl : ('\\' : Char) = '\\'),
      if_neg (show ¬(('b' : Char) = 'u') from by decide),
      if_neg (show ¬(('b' : Char) = '"') from by decide),
      if_neg (show ¬(('b' : Char) = '\\') from by decide),
      if_neg (show ¬(('b' : Char) = '/') from by decide),
      if_pos (rfl : ('b' : Char) = 'b')]

theorem psb_bs_f (z : List Char) :
    parseStringBody ('\\' :: 'f' :: z)
      = (parseStringBody z).map (fun r => (Char.ofNat 12 :: r.1, r.2)) := by
  rw [parseStringBody.eq_def]
  dsimp only
  rw [if_neg (show ¬(('\\' : Char) = '"') from by decide),
      if_pos (rfl : ('\\' : Char) = '\\'),
      if_neg (show ¬(('f' : Char) = 'u') from by decide),
      if_neg (show ¬(('f' : Char) = '"') from by decide),
      if_neg (show ¬(('f' : Char) = '\\') from by decide),
      if_neg (show ¬(('f' : Char) = '/') from by decide),
      if_neg (show ¬(('f' : Char) = 'b') from by decide),
      if_pos (rfl : ('f' : Char) = 'f')]

theorem psb_hex (c : Char) (z : List Char) (h32 : c.toNat < 32) :
    parseStringBody
        ('\\' :: 'u' :: '0' :: '0' :: hexChar (c.toNat / 16) :: hexChar (c.toNat % 16) :: z)
      = (parseStringBody z).map (fun r => (c :: r.1, r.2)) := by
  rw [parseStringBody.eq_def]
  dsimp only
  rw [if_neg (show ¬(('\\' : Char) = '"') from by decide),
      if_pos (rfl : ('\\' : Char) = '\\'),
      if_pos (rfl : ('u' : Char) = 'u'),
      show hexVal '0' = some 0 from by decide,
      hexVal_hexChar (c.toNat / 16) (by omega),
      hexVal_hexChar (c.toNat % 16) (by omega)]
  dsimp only
  have hcode : ((0 * 16 + 0) * 16 + c.toNat / 16) * 16 + c.toNat % 16 = c.toNat := by omega
  rw [hcode, dif_pos (show Nat.isValidChar c.toNat from Or.inl (by omega)), Char.ofNat_toNat]

theorem psb_plain (c : Char) (z : List Char) (h1 : ¬ c = '"') (h2 : ¬ c = '\\') :
    parseStringBody (c :: z) = (parseStringBody z).map (fun r => (c :: r.1, r.2)) := by
  rw [parseStringBody.eq_def]
  dsimp only
  rw [if_neg h1, if_neg h2]

theorem parseStringBody_escapeBody (cs : List Char) :
    ∀ rest : List Char, parseStringBody (escapeBody cs ++ '"' :: rest) = some (cs, rest) := by
  induction cs with
  | nil => intro rest; exact psb_quote rest
  | cons c cs ih =>
      intro rest
      have hbody : escapeBody (c :: cs) = escapeChar c ++ escapeBody cs := rfl
      rw [hbody, List.append_assoc]
      by_cases h1 : c = '"'
      · subst h1
        rw [show escapeChar '"' = ['\\', '"'] from by decide]
        show parseStringBody ('\\' :: '"' :: (escapeBody cs ++ '"' :: rest)) = _
        rw [psb_bs_quote, ih rest]
        rfl
      · by_cases h2 : c = '\\'
        · subst h2
          rw [show escapeChar '\\' = ['\\', '\\'] from by decide]
          show parseStringBody ('\\' :: '\\' :: (escapeBody cs ++ '"' :: rest)) = _
          rw [psb_bs_bs, ih rest]
          rfl
        · by_cases h3 : c = Char.ofNat 10
          · subst h3
            rw [show escapeChar (Char.ofNat 10) = ['\\', 'n'] from by decide]
            show parseStringBody ('\\' :: 'n' :: (escapeBody cs ++ '"' :: rest)) = _
            rw [psb_bs_n, ih rest]
            rfl
          · by_cases h4 : c = Char.ofNat 9
            · subst h4
              rw [show escapeChar (Char.ofNat 9) = ['\\', 't'] from by decide]
              show parseStringBody ('\\' :: 't' :: (escapeBody cs ++ '"' :: rest)) = _
              rw [psb_bs_t, ih rest]
              rfl
            · by_cases h5 : c = Char.ofNat 13
              · subst h5
                rw [show escapeChar (Char.ofNat 13) = ['\\', 'r'] from by decide]
                show parseStringBody ('\\' :: 'r' :: (escapeBody cs ++ '"' :: rest)) = _
                rw [psb_bs_r, ih rest]
                rfl
              · by_cases h6 : c = Char.ofNat 8
                · subst h6
                  rw [show escapeChar (Char.ofNat 8) = ['\\', 'b'] from by decide]
                  show parseStringBody ('\\' :: 'b' :: (escapeBody cs ++ '"' :: rest)) = _
                  rw [psb_bs_b, ih rest]
                  rfl
                · by_cases h7 : c = Char.ofNat 12
                  · subst h7
                    rw [show escapeChar (Char.ofNat 12) = ['\\', 'f'] from by decide]
                    show parseStringBody ('\\' :: 'f' :: (escapeBody cs ++ '"' :: rest)) = _
                    rw [psb_bs_f, ih rest]
                    rfl
                  · by_cases h8 : c.toNat < 32
                    · rw [show escapeChar c
                            = ['\\', 'u', '0', '0', hexChar (c.toNat / 16),
                               hexChar (c.toNat % 16)] from by
                          simp only [escapeChar, if_neg h1, if_neg h2, if_neg h3, if_neg h4,
                            if_neg h5, if_neg h6, if_neg h7, if_pos h8]]
                      show parseStringBody
                          ('\\' :: 'u' :: '0' :: '0' :: hexChar (c.toNat / 16)
                            :: hexChar (c.toNat % 16) :: (escapeBody cs ++ '"' :: rest)) = _
                      rw [psb_hex c _ h8, ih rest]
                      rfl
                    · rw [show escapeChar c = [c] from by
                          simp only [escapeChar, if_neg h1, if_neg h2, if_neg h3, if_neg h4,
                            if_neg h5, if_neg h6, if_neg h7, if_neg h8]]
                      show parseStringBody (c :: (escapeBody cs ++ '"' :: rest)) = _
                      rw [psb_plain c _ h1 h2, ih rest]
                      rfl

theorem mk_toList (s : String) : String.mk s.toList = s := by
  cases s
  rfl

theorem needVal_pos (x : Json) : 1 ≤ needVal x := by
  cases x <;> simp [needVal]

theorem needVal_arr (l : List Json) : needVal (Json.arr l) = 1 + needArr l := by
  rw [needVal]

theorem needVal_obj (l : List (String × Json)) : needVal (Json.obj l) = 1 + needObj l := by
  rw [needVal]

theorem needArr_cons (x : Json) (xs : List Json) :
    needArr (x :: xs) = 1 + needVal x + needArr xs := by
  rw [needArr]

theorem needObj_cons (k : String) (v : Json) (xs : List (String × Json)) :
    needObj ((k, v) :: xs) = 1 + needVal v + needObj xs := by
  rw [needObj]

theorem needVal_mem_arr (l : List Json) (e : Json) (he : e ∈ l) : needVal e < needArr l := by
  induction l with
  | nil => simp at he
  | cons x xs ih =>
      rw [needArr_cons]
      rcases List.mem_cons.mp he with rfl | h2
      · omega
      · have := ih h2
        omega

theorem needVal_mem_obj (l : List (String × Json)) (kv : String × Json) (he : kv ∈ l) :
    needVal kv.2 < needObj l := by
  induction l with
  | nil => simp at he
  | cons x xs ih =>
      obtain ⟨k, v⟩ := x
      rw [needObj_cons]
      rcases List.mem_cons.mp he with rfl | h2
      · simp only
        omega
      · have := ih h2
        omega

theorem printJson_null (ind : ℕ) : printJson ind Json.null = ['n', 'u', 'l', 'l'] := by
  rw [printJson.eq_def]

theorem printJson_true (ind : ℕ) : printJson ind (Json.bool true) = ['t', 'r', 'u', 'e'] := by
  rw [printJson.eq_def]

theorem printJson_false (ind : ℕ) :
    printJson ind (Json.bool false) = ['f', 'a', 'l', 's', 'e'] := by
  rw [printJson.eq_def]

theorem printJson_num (ind : ℕ) (i : ℤ) : printJson ind (Json.num i) = printInt i := by
  rw [printJson.eq_def]

theorem printJson_str (ind : ℕ) (s : String) : printJson ind (Json.str s) = printStrLit s := by
  rw [printJson.eq_def]

theorem printJson_arrNil (ind : ℕ) : printJson ind (Json.arr []) = ['[', ']'] := by
  rw [printJson.eq_def]

theorem printJson_arrCons (ind : ℕ) (x : Json) (xs : List Json) :
    printJson ind (Json.arr (x :: xs))
      = '[' :: '\n' :: printArrItems (ind + 2) x xs ++ '\n' :: (pad ind ++ [']']) := by
  rw [printJson.eq_def]

theorem printJson_objNil (ind : ℕ) : printJson ind (Json.obj []) = ['{', '}'] := by
  rw [printJson.eq_def]

theorem printJson_objCons (ind : ℕ) (x : String × Json) (xs : List (String × Json)) :
    printJson ind (Json.obj (x :: xs))
      = '{' :: '\n' :: printObjItems (ind + 2) x xs ++ '\n' :: (pad ind ++ ['}']) := by
  rw [printJson.eq_def]

theorem printArrItems_nil (ind : ℕ) (x : Json) :
    printArrItems ind x [] = pad ind ++ printJson ind x := by
  rw [printArrItems.eq_def]

theorem printArrItems_cons (ind : ℕ) (x y : Json) (ys : List Json) :
    printArrItems ind x (y :: ys)
      = pad ind ++ printJson ind x ++ ',' :: '\n' :: printArrItems ind y ys := by
  rw [printArrItems.eq_def]

theorem printObjItems_nil (ind : ℕ) (k : String) (v : Json) :
    printObjItems ind (k, v) [] = pad ind ++ printStrLit k ++ ':' :: ' ' :: printJson ind v := by
  rw [printObjItems.eq_def]

theorem printObjItems_cons (ind : ℕ) (k : String) (v : Json) (y : String × Json)
    (ys : List (String × Json)) :
    printObjItems ind (k, v) (y :: ys)
      = pad ind ++ printStrLit k ++ ':' :: ' ' :: printJson ind v ++
          ',' :: '\n' :: printObjItems ind y ys := by
  rw [printObjItems.eq_def]

theorem digit_ne (c : Char) (h : isDigitChar c = true) (d : Char)
    (hd : d.toNat < 48 ∨ 57 < d.toNat) : ¬ c = d := by
  intro he
  subst he
  simp only [isDigitChar, decide_eq_true_eq] at h
  omega

theorem printNat_head (n : ℕ) :
    ∃ c t, printNat n = c :: t ∧ isDigitChar c = true := by
  by_cases hn : n = 0
  · subst hn
    exact ⟨'0', [], rfl, by decide⟩
  · have hne := printNatAux_ne_nil n n (Nat.pos_of_ne_zero hn) (le_refl n)
    cases hpr : printNatAux n n with
    | nil => exact absurd hpr hne
    | cons c t =>
        refine ⟨c, t, ?_, ?_⟩
        · rw [printNat, if_neg hn, hpr]
        · have := printNatAux_digits n n
          rw [hpr] at this
          exact this c (by simp)

theorem printInt_head (i : ℤ) :
    ∃ c t, printInt i = c :: t ∧ isWsChar c = false ∧ ¬ c = ']' ∧ ¬ c = '}' := by
  by_cases hi : i < 0
  · exact ⟨'-', printNat i.natAbs, by rw [printInt, if_pos hi], by decide, by decide, by decide⟩
  · obtain ⟨c, t, hct, hd⟩ := printNat_head i.natAbs
    refine ⟨c, t, ?_, not_ws_of_digit c hd, digit_ne c hd ']' (by decide),
      digit_ne c hd '}' (by decide)⟩
    rw [printInt, if_neg hi, hct]

theorem printJson_head (ind : ℕ) (x : Json) :
    ∃ c t, printJson ind x = c :: t ∧ isWsChar c = false ∧ ¬ c = ']' ∧ ¬ c = '}' := by
  cases x with
  | null => exact ⟨'n', _, printJson_null ind, by decide, by decide, by decide⟩
  | bool b =>
      cases b with
      | true => exact ⟨'t', _, printJson_true ind, by decide, by decide, by decide⟩
      | false => exact ⟨'f', _, printJson_false ind, by decide, by decide, by decide⟩
  | num i =>
      obtain ⟨c, t, hct, h1, h2, h3⟩ := printInt_head i
      exact ⟨c, t, by rw [printJson_num, hct], h1, h2, h3⟩
  | str s =>
      refine ⟨'"', escapeBody s.toList ++ ['"'], ?_, by decide, by decide, by decide⟩
      rw [printJson_str, printStrLit]
      rfl
  | arr l =>
      cases l with
      | nil => exact ⟨'[', _, printJson_arrNil ind, by decide, by decide, by decide⟩
      | cons y ys => exact ⟨'[', _, printJson_arrCons ind y ys, by decide, by decide, by decide⟩
  | obj l =>
      cases l with
      | nil => exact ⟨'{', _, printJson_objNil ind, by decide, by decide, by decide⟩
      | cons y ys => exact ⟨'{', _, printJson_objCons ind y ys, by decide, by decide, by decide⟩

theorem parseVal_succ (f : ℕ) (s : List Char) :
    parseVal (f + 1) s
      = match skipWs s with
        | [] => none
        | c :: t =>
            if c = 'n' then (expectChars ['u', 'l', 'l'] t).map (fun r => (Json.null, r))
            else if c = 't' then
              (expectChars ['r', 'u', 'e'] t).map (fun r => (Json.bool true, r))
            else if c = 'f' then
              (expectChars ['a', 'l', 's', 'e'] t).map (fun r => (Json.bool false, r))
            else if c = '"' then
              (parseStringBody t).map (fun r => (Json.str (String.mk r.1), r.2))
            else if c = '[' then
              match skipWs t with
              | [] => none
              | c2 :: r =>
                  if c2 = ']' then some (Json.arr [], r)
                  else (parseArrItems f (c2 :: r)).map (fun w => (Json.arr w.1, w.2))
            else if c = '{' then
              match skipWs t with
              | [] => none
              | c2 :: r =>
                  if c2 = '}' then some (Json.obj [], r)
                  else (parseObjItems f (c2 :: r)).map (fun w => (Json.obj w.1, w.2))
            else if c = '-' then (parseNat t).map (fun r => (Json.num (-(r.1 : ℤ)), r.2))
            else if isDigitChar c then
              (parseNat (c :: t)).map (fun r => (Json.num (r.1 : ℤ), r.2))
            else none := by
  rw [parseVal.eq_def]

theorem parseArrItems_succ (f : ℕ) (s : List Char) :
    parseArrItems (f + 1) s
      = match parseVal f s with
        | none => none
        | some (v, r) =>
            match skipWs r with
            | [] => none
            | c :: r2 =>
                if c = ',' then (parseArrItems f r2).map (fun w => (v :: w.1, w.2))
                else if c = ']' then some ([v], r2)
                else none := by
  rw [parseArrItems.eq_def]

theorem parseObjItems_succ (f : ℕ) (s : List Char) :
    parseObjItems (f + 1) s
      = match skipWs s with
        | [] => none
        | c :: t =>
            if c = '"' then
              match parseStringBody t with
              | none => none
              | some (k, r) =>
                  match skipWs r with
                  | [] => none
                  | c2 :: r2 =>
                      if c2 = ':' then
                        match parseVal f r2 with
                        | none => none
                        | some (v, r3) =>
                            match skipWs r3 with
                            | [] => none
                            | c3 :: r4 =>
                                if c3 = ',' then
                                  (parseObjItems f r4).map
                                    (fun w => ((String.mk k, v) :: w.1, w.2))
                                else if c3 = '}' then some ([(String.mk k, v)], r4)
                                else none
                      else none
            else none := by
  rw [parseObjItems.eq_def]

theorem pv_null (f ind : ℕ) (rest : List Char) :
    parseVal (f + 1) (printJson ind Json.null ++ rest) = some (Json.null, rest) := by
  rw [printJson_null]
  rw [parseVal_succ]
  dsimp only [List.cons_append, List.nil_append]
  rw [skipWs_cons_nonws _ _ (by decide)]
  dsimp only
  rw [if_pos (rfl : ('n' : Char) = 'n')]
  rw [show ('u' :: 'l' :: 'l' :: rest) = ['u', 'l', 'l'] ++ rest from rfl, expectChars_append]
  rfl

theorem pv_true (f ind : ℕ) (rest : List Char) :
    parseVal (f + 1) (printJson ind (Json.bool true) ++ rest) = some (Json.bool true, rest) := by
  rw [printJson_true]
  rw [parseVal_succ]
  dsimp only [List.cons_append, List.nil_append]
  rw [skipWs_cons_nonws _ _ (by decide)]
  dsimp only
  rw [if_neg (show ¬(('t' : Char) = 'n') from by decide),
      if_pos (rfl : ('t' : Char) = 't')]
  rw [show ('r' :: 'u' :: 'e' :: rest) = ['r', 'u', 'e'] ++ rest from rfl, expectChars_append]
  rfl

theorem pv_false (f ind : ℕ) (rest : List Char) :
    parseVal (f + 1) (printJson ind (Json.bool false) ++ rest)
      = some (Json.bool false, rest) := by
  rw [printJson_false]
  rw [parseVal_succ]
  dsimp only [List.cons_append, List.nil_append]
  rw [skipWs_cons_nonws _ _ (by decide)]
  dsimp only
  rw [if_neg (show ¬(('f' : Char) = 'n') from by decide),
      if_neg (show ¬(('f' : Char) = 't') from by decide),
      if_pos (rfl : ('f' : Char) = 'f')]
  rw [show ('a' :: 'l' :: 's' :: 'e' :: rest) = ['a', 'l', 's', 'e'] ++ rest from rfl,
      expectChars_append]
  rfl

theorem pv_arrNil (f ind : ℕ) (rest : List Char) :
    parseVal (f + 1) (printJson ind (Json.arr []) ++ rest) = some (Json.arr [], rest) := by
  rw [printJson_arrNil]
  rw [parseVal_succ]
  dsimp only [List.cons_append, List.nil_append]
  rw [skipWs_cons_nonws _ _ (by decide)]
  dsimp only
  rw [if_neg (show ¬(('[' : Char) = 'n') from by decide),
      if_neg (show ¬(('[' : Char) = 't') from by decide),
      if_neg (show ¬(('[' : Char) = 'f') from by decide),
      if_neg (show ¬(('[' : Char) = '"') from by decide),
      if_pos (rfl : ('[' : Char) = '[')]
  rw [skipWs_cons_nonws _ _ (by decide)]
  dsimp only
  rw [if_pos (rfl : (']' : Char) = ']')]

theorem pv_objNil (f ind : ℕ) (rest : List Char) :
    parseVal (f + 1) (printJson ind (Json.obj []) ++ rest) = some (Json.obj [], rest) := by
  rw [printJson_objNil]
  rw [parseVal_succ]
  dsimp only [List.cons_append, List.nil_append]
  rw [skipWs_cons_nonws _ _ (by decide)]
  dsimp only
  rw [if_neg (show ¬(('{' : Char) = 'n') from by decide),
      if_neg (show ¬(('{' : Char) = 't') from by decide),
      if_neg (show ¬(('{' : Char) = 'f') from by decide),
      if_neg (show ¬(('{' : Char) = '"') from by decide),
      if_neg (show ¬(('{' : Char) = '[') from by decide),
      if_pos (rfl : ('{' : Char) = '{')]
  rw [skipWs_cons_nonws _ _ (by decide)]
  dsimp only
  rw [if_pos (rfl : ('}' : Char) = '}')]

theorem pv_str (f ind : ℕ) (s : String) (rest : List Char) :
    parseVal (f + 1) (printJson ind (Json.str s) ++ rest) = some (Json.str s, rest) := by
  rw [printJson_str, printStrLit]
  rw [show (('"' :: escapeBody s.toList ++ ['"']) ++ rest)
        = '"' :: (escapeBody s.toList ++ ('"' :: rest)) from by simp]
  rw [parseVal_succ]
  rw [skipWs_cons_nonws _ _ (by decide)]
  dsimp only
  rw [if_neg (show ¬(('"' : Char) = 'n') from by decide),
      if_neg (show ¬(('"' : Char) = 't') from by decide),
      if_neg (show ¬(('"' : Char) = 'f') from by decide),
      if_pos (rfl : ('"' : Char) = '"')]
  rw [parseStringBody_escapeBody s.toList rest]
  show some (Json.str (String.mk s.toList), rest) = some (Json.str s, rest)
  rw [mk_toList]

theorem pv_num (f ind : ℕ) (i : ℤ) (rest : List Char)
    (hrest : ∀ c ∈ rest.head?, isDigitChar c = false) :
    parseVal (f + 1) (printJson ind (Json.num i) ++ rest) = some (Json.num i, rest) := by
  rw [printJson_num, printInt]
  by_cases hi : i < 0
  · rw [if_pos hi]
    rw [show (('-' :: printNat i.natAbs) ++ rest) = '-' :: (printNat i.natAbs ++ rest) from rfl]
    rw [parseVal_succ]
    rw [skipWs_cons_nonws _ _ (by decide)]
    dsimp only
    rw [if_neg (show ¬(('-' : Char) = 'n') from by decide),
        if_neg (show ¬(('-' : Char) = 't') from by decide),
        if_neg (show ¬(('-' : Char) = 'f') from by decide),
        if_neg (show ¬(('-' : Char) = '"') from by decide),
        if_neg (show ¬(('-' : Char) = '[') from by decide),
        if_neg (show ¬(('-' : Char) = '{') from by decide),
        if_pos (rfl : ('-' : Char) = '-')]
    rw [parseNat_printNat i.natAbs rest hrest]
    show some (Json.num (-(i.natAbs : ℤ)), rest) = some (Json.num i, rest)
    rw [show -(i.natAbs : ℤ) = i from by omega]
  · rw [if_neg hi]
    obtain ⟨c, t, hct, hd⟩ := printNat_head i.natAbs
    rw [hct]
    rw [show ((c :: t) ++ rest) = c :: (t ++ rest) from rfl]
    rw [parseVal_succ]
    rw [skipWs_cons_nonws _ _ (not_ws_of_digit c hd)]
    dsimp only
    rw [if_neg (digit_ne c hd 'n' (by decide)),
        if_neg (digit_ne c hd 't' (by decide)),
        if_neg (digit_ne c hd 'f' (by decide)),
        if_neg (digit_ne c hd '"' (by decide)),
        if_neg (digit_ne c hd '[' (by decide)),
        if_neg (digit_ne c hd '{' (by decide)),
        if_neg (digit_ne c hd '-' (by decide)),
        if_pos hd]
    rw [show (c :: (t ++ rest)) = (c :: t) ++ rest from rfl, ← hct,
        parseNat_printNat i.natAbs rest hrest]
    show some (Json.num ((i.natAbs : ℤ)), rest) = some (Json.num i, rest)
    rw [show ((i.natAbs : ℤ)) = i from by omega]

theorem nl_pad_ws (j : ℕ) : ∀ c ∈ ('\n' :: pad j : List Char), isWsChar c = true := by
  intro c hc
  rcases List.mem_cons.mp hc with rfl | h2
  · decide
  · exact pad_ws j c h2

theorem printArrItems_decomp (ind : ℕ) (x : Json) (xs : List Json) :
    ∃ mid, printArrItems ind x xs = pad ind ++ (printJson ind x ++ mid) := by
  cases xs with
  | nil =>
      refine ⟨[], ?_⟩
      rw [printArrItems_nil]
      simp
  | cons y ys =>
      refine ⟨',' :: '\n' :: printArrItems ind y ys, ?_⟩
      rw [printArrItems_cons]
      simp

theorem printObjItems_decomp (ind : ℕ) (k : String) (v : Json)
    (xs : List (String × Json)) :
    ∃ mid, printObjItems ind (k, v) xs = pad ind ++ '"' :: mid := by
  cases xs with
  | nil =>
      refine ⟨escapeBody k.toList ++ '"' :: ':' :: ' ' :: printJson ind v, ?_⟩
      rw [printObjItems_nil, printStrLit]
      simp
  | cons y ys =>
      refine ⟨escapeBody k.toList ++ '"' :: ':' :: ' ' :: printJson ind v
        ++ ',' :: '\n' :: printObjItems ind y ys, ?_⟩
      rw [printObjItems_cons, printStrLit]
      simp

theorem pv_arrCons (f ind : ℕ) (x : Json) (xs : List Json) (rest : List Char)
    (hitems : parseArrItems f
        (printArrItems (ind + 2) x xs ++ '\n' :: (pad ind ++ (']' :: rest)))
      = some (x :: xs, rest)) :
    parseVal (f + 1) (printJson ind (Json.arr (x :: xs)) ++ rest)
      = some (Json.arr (x :: xs), rest) := by
  obtain ⟨mid, hmid⟩ := printArrItems_decomp (ind + 2) x xs
  obtain ⟨c2, t2, hct, hws, hrb, _⟩ := printJson_head (ind + 2) x
  rw [printJson_arrCons]
  rw [show (('[' :: '\n' :: printArrItems (ind + 2) x xs ++ '\n' :: (pad ind ++ [']'])) ++ rest)
        = '[' :: '\n' :: (printArrItems (ind + 2) x xs
            ++ '\n' :: (pad ind ++ (']' :: rest))) from by simp]
  rw [parseVal_succ]
  rw [skipWs_cons_nonws _ _ (by decide)]
  dsimp only
  rw [if_neg (show ¬(('[' : Char) = 'n') from by decide),
      if_neg (show ¬(('[' : Char) = 't') from by decide),
      if_neg (show ¬(('[' : Char) = 'f') from by decide),
      if_neg (show ¬(('[' : Char) = '"') from by decide),
      if_pos (rfl : ('[' : Char) = '[')]
  have hsw : skipWs ('\n' :: (printArrItems (ind + 2) x xs
        ++ '\n' :: (pad ind ++ (']' :: rest))))
      = c2 :: (t2 ++ (mid ++ '\n' :: (pad ind ++ (']' :: rest)))) := by
    rw [hmid]
    rw [show ('\n' :: ((pad (ind + 2) ++ (printJson (ind + 2) x ++ mid))
            ++ '\n' :: (pad ind ++ (']' :: rest))))
          = ('\n' :: pad (ind + 2))
            ++ (printJson (ind + 2) x ++ (mid ++ '\n' :: (pad ind ++ (']' :: rest))))
        from by simp]
    rw [skipWs_append_ws _ _ (nl_pad_ws (ind + 2)), hct]
    rw [show ((c2 :: t2) ++ (mid ++ '\n' :: (pad ind ++ (']' :: rest))))
          = c2 :: (t2 ++ (mid ++ '\n' :: (pad ind ++ (']' :: rest)))) from rfl]
    exact skipWs_cons_nonws _ _ hws
  rw [hsw]
  dsimp only
  rw [if_neg hrb]
  have harr : parseArrItems f (c2 :: (t2 ++ (mid ++ '\n' :: (pad ind ++ (']' :: rest)))))
      = some (x :: xs, rest) := by
    have h1 : (printArrItems (ind + 2) x xs ++ '\n' :: (pad ind ++ (']' :: rest)))
        = pad (ind + 2) ++ (c2 :: (t2 ++ (mid ++ '\n' :: (pad ind ++ (']' :: rest))))) := by
      rw [hmid, hct]
      simp
    rw [h1, parseArrItems_ws f (pad (ind + 2)) _ (pad_ws (ind + 2))] at hitems
    exact hitems
  rw [harr]
  rfl

theorem pv_objCons (f ind : ℕ) (k : String) (v : Json) (xs : List (String × Json))
    (rest : List Char)
    (hitems : parseObjItems f
        (printObjItems (ind + 2) (k, v) xs ++ '\n' :: (pad ind ++ ('}' :: rest)))
      = some ((k, v) :: xs, rest)) :
    parseVal (f + 1) (printJson ind (Json.obj ((k, v) :: xs)) ++ rest)
      = some (Json.obj ((k, v) :: xs), rest) := by
  obtain ⟨mid, hmid⟩ := printObjItems_decomp (ind + 2) k v xs
  rw [printJson_objCons]
  rw [show (('{' :: '\n' :: printObjItems (ind + 2) (k, v) xs ++ '\n' :: (pad ind ++ ['}']))
          ++ rest)
        = '{' :: '\n' :: (printObjItems (ind + 2) (k, v) xs
            ++ '\n' :: (pad ind ++ ('}' :: rest))) from by simp]
  rw [parseVal_succ]
  rw [skipWs_cons_nonws _ _ (by decide)]
  dsimp only
  rw [if_neg (show ¬(('{' : Char) = 'n') from by decide),
      if_neg (show ¬(('{' : Char) = 't') from by decide),
      if_neg (show ¬(('{' : Char) = 'f') from by decide),
      if_neg (show ¬(('{' : Char) = '"') from by decide),
      if_neg (show ¬(('{' : Char) = '[') from by decide),
      if_pos (rfl : ('{' : Char) = '{')]
  have hsw : skipWs ('\n' :: (printObjItems (ind + 2) (k, v) xs
        ++ '\n' :: (pad ind ++ ('}' :: rest))))
      = '"' :: (mid ++ '\n' :: (pad ind ++ ('}' :: rest))) := by
    rw [hmid]
    rw [show ('\n' :: ((pad (ind + 2) ++ '"' :: mid) ++ '\n' :: (pad ind ++ ('}' :: rest))))
          = ('\n' :: pad (ind + 2))
            ++ ('"' :: (mid ++ '\n' :: (pad ind ++ ('}' :: rest)))) from by simp]
    rw [skipWs_append_ws _ _ (nl_pad_ws (ind + 2))]
    exact skipWs_cons_nonws _ _ (by decide)
  rw [hsw]
  dsimp only
  rw [if_neg (show ¬(('"' : Char) = '}') from by decide)]
  have hobj : parseObjItems f ('"' :: (mid ++ '\n' :: (pad ind ++ ('}' :: rest))))
      = some ((k, v) :: xs, rest) := by
    have h1 : (printObjItems (ind + 2) (k, v) xs ++ '\n' :: (pad ind ++ ('}' :: rest)))
        = pad (ind + 2) ++ ('"' :: (mid ++ '\n' :: (pad ind ++ ('}' :: rest)))) := by
      rw [hmid]
      simp
    rw [h1, parseObjItems_ws f (pad (ind + 2)) _ (pad_ws (ind + 2))] at hitems
    exact hitems
  rw [hobj]
  rfl

theorem needArr_nil : needArr [] = 0 := by
  rw [needArr]

theorem needObj_nil : needObj [] = 0 := by
  rw [needObj]

theorem headNotDigit_of (c : Char) (hc : isDigitChar c = false) (z : List Char) :
    ∀ c2 ∈ (c :: z).head?, isDigitChar c2 = false := by
  intro c2 h2
  rw [List.head?_cons, Option.mem_some_iff] at h2
  rw [← h2]
  exact hc

theorem nl_ws : ∀ c ∈ (['\n'] : List Char), isWsChar c = true := by
  intro c hc
  rw [List.mem_singleton] at hc
  rw [hc]
  decide

theorem roundArr (xs : List Json) :
    ∀ (x : Json),
      (∀ e ∈ x :: xs, ∀ (fuel ind : ℕ) (rest : List Char), needVal e ≤ fuel →
        (∀ c ∈ rest.head?, isDigitChar c = false) →
        parseVal fuel (printJson ind e ++ rest) = some (e, rest)) →
      ∀ (fuel ind j : ℕ) (rest : List Char), needArr (x :: xs) ≤ fuel →
      parseArrItems fuel (printArrItems ind x xs ++ '\n' :: (pad j ++ (']' :: rest)))
        = some (x :: xs, rest) := by
  induction xs with
  | nil =>
      intro x hmem fuel ind j rest hfuel
      rw [needArr_cons, needArr_nil] at hfuel
      cases fuel with
      | zero => omega
      | succ f =>
          rw [printArrItems_nil]
          rw [show ((pad ind ++ printJson ind x) ++ '\n' :: (pad j ++ (']' :: rest)))
                = pad ind ++ (printJson ind x ++ '\n' :: (pad j ++ (']' :: rest)))
              from by simp]
          rw [parseArrItems_succ]
          rw [parseVal_ws f (pad ind) _ (pad_ws ind)]
          rw [hmem x (by simp) f ind ('\n' :: (pad j ++ (']' :: rest))) (by omega)
              (headNotDigit_of '\n' (by decide) _)]
          dsimp only
          rw [show ('\n' :: (pad j ++ (']' :: rest))) = ('\n' :: pad j) ++ (']' :: rest)
                from by simp,
              skipWs_append_ws _ _ (nl_pad_ws j), skipWs_cons_nonws _ _ (by decide)]
          dsimp only
          rw [if_neg (show ¬((']' : Char) = ',') from by decide),
              if_pos (rfl : (']' : Char) = ']')]
  | cons y ys ih =>
      intro x hmem fuel ind j rest hfuel
      rw [needArr_cons, needArr_cons] at hfuel
      have hvy := needVal_pos y
      have hvx := needVal_pos x
      cases fuel with
      | zero => omega
      | succ f =>
          rw [printArrItems_cons]
          rw [show ((pad ind ++ printJson ind x ++ ',' :: '\n' :: printArrItems ind y ys)
                  ++ '\n' :: (pad j ++ (']' :: rest)))
                = pad ind ++ (printJson ind x
                    ++ ',' :: '\n' :: (printArrItems ind y ys
                        ++ '\n' :: (pad j ++ (']' :: rest)))) from by simp]
          rw [parseArrItems_succ]
          rw [parseVal_ws f (pad ind) _ (pad_ws ind)]
          rw [hmem x (by simp) f ind
              (',' :: '\n' :: (printArrItems ind y ys ++ '\n' :: (pad j ++ (']' :: rest))))
              (by omega) (headNotDigit_of ',' (by decide) _)]
          dsimp only
          rw [skipWs_cons_nonws _ _ (by decide)]
          dsimp only
          rw [if_pos (rfl : (',' : Char) = ',')]
          rw [show ('\n' :: (printArrItems ind y ys ++ '\n' :: (pad j ++ (']' :: rest))))
                = ['\n'] ++ (printArrItems ind y ys ++ '\n' :: (pad j ++ (']' :: rest)))
              from rfl,
              parseArrItems_ws f ['\n'] _ nl_ws]
          rw [ih y (fun e he => hmem e (List.mem_cons_of_mem x he)) f ind j rest
              (by rw [needArr_cons]; omega)]
          rfl

theorem sp_ws : ∀ c ∈ ([' '] : List Char), isWsChar c = true := by
  intro c hc
  rw [List.mem_singleton] at hc
  rw [hc]
  decide

theorem roundObj (xs : List (String × Json)) :
    ∀ (k : String) (v : Json),
      (∀ kv ∈ (k, v) :: xs, ∀ (fuel ind : ℕ) (rest : List Char), needVal kv.2 ≤ fuel →
        (∀ c ∈ rest.head?, isDigitChar c = false) →
        parseVal fuel (printJson ind kv.2 ++ rest) = some (kv.2, rest)) →
      ∀ (fuel ind j : ℕ) (rest : List Char), needObj ((k, v) :: xs) ≤ fuel →
      parseObjItems fuel (printObjItems ind (k, v) xs ++ '\n' :: (pad j ++ ('}' :: rest)))
        = some ((k, v) :: xs, rest) := by
  induction xs with
  | nil =>
      intro k v hmem fuel ind j rest hfuel
      rw [needObj_cons, needObj_nil] at hfuel
      cases fuel with
      | zero => omega
      | succ f =>
          rw [printObjItems_nil, printStrLit]
          rw [show ((pad ind ++ ('"' :: escapeBody k.toList ++ ['"'])
                  ++ ':' :: ' ' :: printJson ind v) ++ '\n' :: (pad j ++ ('}' :: rest)))
                = pad ind ++ '"' :: (escapeBody k.toList
                    ++ '"' :: ':' :: ' ' :: (printJson ind v
                        ++ '\n' :: (pad j ++ ('}' :: rest)))) from by simp]
          rw [parseObjItems_succ]
          rw [skipWs_append_ws _ _ (pad_ws ind), skipWs_cons_nonws _ _ (by decide)]
          dsimp only
          rw [if_pos (rfl : ('"' : Char) = '"')]
          rw [show (escapeBody k.toList
                  ++ '"' :: ':' :: ' ' :: (printJson ind v ++ '\n' :: (pad j ++ ('}' :: rest))))
                = escapeBody k.toList
                  ++ '"' :: (':' :: ' ' :: (printJson ind v ++ '\n' :: (pad j ++ ('}' :: rest))))
              from rfl,
              parseStringBody_escapeBody]
          dsimp only
          rw [skipWs_cons_nonws _ _ (by decide)]
          dsimp only
          rw [if_pos (rfl : (':' : Char) = ':')]
          rw [show (' ' :: (printJson ind v ++ '\n' :: (pad j ++ ('}' :: rest))))
                = [' '] ++ (printJson ind v ++ '\n' :: (pad j ++ ('}' :: rest))) from rfl,
              parseVal_ws f [' '] _ sp_ws]
          have hpv : parseVal f (printJson ind v ++ '\n' :: (pad j ++ ('}' :: rest)))
              = some (v, '\n' :: (pad j ++ ('}' :: rest))) :=
            hmem (k, v) (by simp) f ind _ (by show needVal v ≤ f; omega)
              (headNotDigit_of '\n' (by decide) _)
          rw [hpv]
          dsimp only
          rw [show ('\n' :: (pad j ++ ('}' :: rest))) = ('\n' :: pad j) ++ ('}' :: rest)
                from by simp,
              skipWs_append_ws _ _ (nl_pad_ws j), skipWs_cons_nonws _ _ (by decide)]
          dsimp only
          rw [if_neg (show ¬(('}' : Char) = ',') from by decide),
              if_pos (rfl : ('}' : Char) = '}'), mk_toList]
  | cons y ys ih =>
      intro k v hmem fuel ind j rest hfuel
      obtain ⟨ky, vy⟩ := y
      rw [needObj_cons, needObj_cons] at hfuel
      have hvy := needVal_pos vy
      cases fuel with
      | zero => omega
      | succ f =>
          rw [printObjItems_cons, printStrLit]
          rw [show ((pad ind ++ ('"' :: escapeBody k.toList ++ ['"'])
                  ++ ':' :: ' ' :: printJson ind v
                  ++ ',' :: '\n' :: printObjItems ind (ky, vy) ys)
                    ++ '\n' :: (pad j ++ ('}' :: rest)))
                = pad ind ++ '"' :: (escapeBody k.toList
                    ++ '"' :: ':' :: ' ' :: (printJson ind v
                        ++ ',' :: '\n' :: (printObjItems ind (ky, vy) ys
                            ++ '\n' :: (pad j ++ ('}' :: rest))))) from by simp]
          rw [parseObjItems_succ]
          rw [skipWs_append_ws _ _ (pad_ws ind), skipWs_cons_nonws _ _ (by decide)]
          dsimp only
          rw [if_pos (rfl : ('"' : Char) = '"')]
          rw [show (escapeBody k.toList
                  ++ '"' :: ':' :: ' ' :: (printJson ind v
                      ++ ',' :: '\n' :: (printObjItems ind (ky, vy) ys
                          ++ '\n' :: (pad j ++ ('}' :: rest)))))
                = escapeBody k.toList
                  ++ '"' :: (':' :: ' ' :: (printJson ind v
                      ++ ',' :: '\n' :: (printObjItems ind (ky, vy) ys
                          ++ '\n' :: (pad j ++ ('}' :: rest))))) from rfl,
              parseStringBody_escapeBody]
          dsimp only
          rw [skipWs_cons_nonws _ _ (by decide)]
          dsimp only
          rw [if_pos (rfl : (':' : Char) = ':')]
          rw [show (' ' :: (printJson ind v
                  ++ ',' :: '\n' :: (printObjItems ind (ky, vy) ys
                      ++ '\n' :: (pad j ++ ('}' :: rest)))))
                = [' '] ++ (printJson ind v
                  ++ ',' :: '\n' :: (printObjItems ind (ky, vy) ys
                      ++ '\n' :: (pad j ++ ('}' :: rest)))) from rfl,
              parseVal_ws f [' '] _ sp_ws]
          have hpv : parseVal f (printJson ind v
                ++ ',' :: '\n' :: (printObjItems ind (ky, vy) ys
                    ++ '\n' :: (pad j ++ ('}' :: rest))))
              = some (v, ',' :: '\n' :: (printObjItems ind (ky, vy) ys
                    ++ '\n' :: (pad j ++ ('}' :: rest)))) :=
            hmem (k, v) (by simp) f ind _ (by show needVal v ≤ f; omega)
              (headNotDigit_of ',' (by decide) _)
          rw [hpv]
          dsimp only
          rw [skipWs_cons_nonws _ _ (by decide)]
          dsimp only
          rw [if_pos (rfl : (',' : Char) = ',')]
          rw [show ('\n' :: (printObjItems ind (ky, vy) ys ++ '\n' :: (pad j ++ ('}' :: rest))))
                = ['\n'] ++ (printObjItems ind (ky, vy) ys ++ '\n' :: (pad j ++ ('}' :: rest)))
              from rfl,
              parseObjItems_ws f ['\n'] _ nl_ws]
          rw [ih ky vy (fun kv hkv => hmem kv (List.mem_cons_of_mem (k, v) hkv)) f ind j rest
              (by rw [needObj_cons]; omega)]
          rw [mk_toList]
          rfl

theorem roundVal_all (N : ℕ) : ∀ x : Json, needVal x ≤ N →
    ∀ (fuel ind : ℕ) (rest : List Char), needVal x ≤ fuel →
    (∀ c ∈ rest.head?, isDigitChar c = false) →
    parseVal fuel (printJson ind x ++ rest) = some (x, rest) := by
  induction N with
  | zero =>
      intro x hx
      have := needVal_pos x
      omega
  | succ N ih =>
      intro x hx fuel ind rest hfuel hrest
      have hpos := needVal_pos x
      cases fuel with
      | zero => omega
      | succ f =>
          cases x with
          | null => exact pv_null f ind rest
          | bool b =>
              cases b with
              | true => exact pv_true f ind rest
              | false => exact pv_false f ind rest
          | num i => exact pv_num f ind i rest hrest
          | str s => exact pv_str f ind s rest
          | arr l =>
              cases l with
              | nil => exact pv_arrNil f ind rest
              | cons y ys =>
                  rw [needVal_arr] at hx hfuel
                  refine pv_arrCons f ind y ys rest ?_
                  refine roundArr ys y ?_ f (ind + 2) ind rest (by omega)
                  intro e he
                  have hlt := needVal_mem_arr (y :: ys) e he
                  exact ih e (by omega)
          | obj l =>
              cases l with
              | nil => exact pv_objNil f ind rest
              | cons y ys =>
                  obtain ⟨k, v⟩ := y
                  rw [needVal_obj] at hx hfuel
                  refine pv_objCons f ind k v ys rest ?_
                  refine roundObj ys k v ?_ f (ind + 2) ind rest (by omega)
                  intro kv hkv
                  have hlt := needVal_mem_obj ((k, v) :: ys) kv hkv
                  exact ih kv.2 (by omega)

theorem pad_length (n : ℕ) : (pad n).length = n := by
  simp [pad]

theorem needVal_null : needVal Json.null = 1 := by rw [needVal]

theorem needVal_bool (b : Bool) : needVal (Json.bool b) = 1 := by rw [needVal]

theorem needVal_num (i : ℤ) : needVal (Json.num i) = 1 := by rw [needVal]

theorem needVal_str (s : String) : needVal (Json.str s) = 1 := by rw [needVal]

theorem needArr_le_items (ind : ℕ) (hind : 1 ≤ ind) :
    ∀ (xs : List Json) (x : Json),
      (∀ e ∈ x :: xs, ∀ i, needVal e ≤ (printJson i e).length) →
      needArr (x :: xs) ≤ (printArrItems ind x xs).length := by
  intro xs
  induction xs with
  | nil =>
      intro x hmem
      rw [needArr_cons, needArr_nil, printArrItems_nil, List.length_append, pad_length]
      have := hmem x (by simp) ind
      omega
  | cons y ys ih =>
      intro x hmem
      rw [needArr_cons, printArrItems_cons]
      have h1 := hmem x (by simp) ind
      have h2 := ih y (fun e he => hmem e (List.mem_cons_of_mem x he))
      rw [needArr_cons] at h2 ⊢
      simp only [List.length_append, List.length_cons, pad_length]
      omega

theorem needObj_le_items (ind : ℕ) (hind : 1 ≤ ind) :
    ∀ (xs : List (String × Json)) (k : String) (v : Json),
      (∀ kv ∈ (k, v) :: xs, ∀ i, needVal kv.2 ≤ (printJson i kv.2).length) →
      needObj ((k, v) :: xs) ≤ (printObjItems ind (k, v) xs).length := by
  intro xs
  induction xs with
  | nil =>
      intro k v hmem
      rw [needObj_cons, needObj_nil, printObjItems_nil]
      have h1 : needVal v ≤ (printJson ind v).length := hmem (k, v) (by simp) ind
      simp only [List.length_append, List.length_cons, pad_length]
      omega
  | cons y ys ih =>
      intro k v hmem
      obtain ⟨ky, vy⟩ := y
      rw [needObj_cons, printObjItems_cons]
      have h1 : needVal v ≤ (printJson ind v).length := hmem (k, v) (by simp) ind
      have h2 := ih ky vy (fun kv hkv => hmem kv (List.mem_cons_of_mem (k, v) hkv))
      rw [needObj_cons] at h2 ⊢
      simp only [List.length_append, List.length_cons, pad_length]
      omega

theorem needVal_le_length (N : ℕ) : ∀ x : Json, needVal x ≤ N →
    ∀ ind, needVal x ≤ (printJson ind x).length := by
  induction N with
  | zero =>
      intro x hx
      have := needVal_pos x
      omega
  | succ N ih =>
      intro x hx ind
      cases x with
      | null =>
          rw [needVal_null, printJson_null]
          simp
      | bool b =>
          rw [needVal_bool]
          cases b with
          | true => rw [printJson_true]; simp
          | false => rw [printJson_false]; simp
      | num i =>
          rw [needVal_num, printJson_num]
          obtain ⟨c, t, hct, _, _, _⟩ := printInt_head i
          rw [hct]
          simp
      | str s =>
          rw [needVal_str, printJson_str, printStrLit]
          simp
      | arr l =>
          cases l with
          | nil =>
              rw [needVal_arr, needArr_nil, printJson_arrNil]
              simp
          | cons y ys =>
              rw [needVal_arr] at hx ⊢
              rw [printJson_arrCons]
              have hitems : needArr (y :: ys) ≤ (printArrItems (ind + 2) y ys).length := by
                refine needArr_le_items (ind + 2) (by omega) ys y ?_
                intro e he i
                have hlt := needVal_mem_arr (y :: ys) e he
                exact ih e (by omega) i
              simp only [List.length_append, List.length_cons, pad_length]
              omega
      | obj l =>
          cases l with
          | nil =>
              rw [needVal_obj, needObj_nil, printJson_objNil]
              simp
          | cons y ys =>
              obtain ⟨k, v⟩ := y
              rw [needVal_obj] at hx ⊢
              rw [printJson_objCons]
              have hitems : needObj ((k, v) :: ys)
                  ≤ (printObjItems (ind + 2) (k, v) ys).length := by
                refine needObj_le_items (ind + 2) (by omega) ys k v ?_
                intro kv hkv i
                have hlt := needVal_mem_obj ((k, v) :: ys) kv hkv
                exact ih kv.2 (by omega) i
              simp only [List.length_append, List.length_cons, pad_length]
              omega

theorem loads_dumps (x : Json) : loads (String.mk (dumps x)) = some x := by
  have hpv : parseVal ((String.mk (dumps x)).length + 1) (String.mk (dumps x)).toList
      = some (x, []) := by
    show parseVal ((dumps x).length + 1) (dumps x) = some (x, [])
    rw [show (dumps x) = printJson 0 x ++ ([] : List Char) from by rw [dumps, List.append_nil]]
    refine roundVal_all (needVal x) x (le_refl _) _ 0 [] ?_ ?_
    · have h := needVal_le_length (needVal x) x (le_refl _) 0
      have h3 : (printJson 0 x ++ ([] : List Char)).length = (printJson 0 x).length := by simp
      omega
    · intro c hc
      simp at hc
  rw [loads, hpv]
  dsimp only
  rw [if_pos (show skipWs ([] : List Char) = [] from rfl)]

/-- C9: for every file system state, path and value, atomic_write_json followed
by atomic_read_json on the same path returns the written value (round trip
through the json.dumps/json.load encoding with indent=2 and ensure_ascii=False,
integer numerics); and atomic_read_json returns the caller default both for a
missing file and for a file whose content does not parse. -/
theorem c9_atomic_json_round_trip (fs : FileSystem) (path p1 p2 : String)
    (x d : Json) (content : String)
    (h1 : fs p1 = none) (h2 : fs p2 = some content) (h3 : loads content = none) :
    atomic_read_json (atomic_write_json fs path x) path d = x
    ∧ atomic_read_json fs p1 d = d
    ∧ atomic_read_json fs p2 d = d := by
  refine ⟨?_, ?_, ?_⟩
  · rw [atomic_read_json, atomic_write_json]
    rw [if_pos rfl]
    dsimp only
    rw [loads_dumps x]
  · rw [atomic_read_json, h1]
  · rw [atomic_read_json, h2]
    dsimp only
    rw [h3]

/-- Witness for C9 at a concrete store holding one unparseable file, with a
nested object written to state.json and read back. -/
theorem c9_atomic_json_round_trip_witness :
    atomic_read_json
        (atomic_write_json
          (fun p : String => if p = "bad.json" then some "not json" else none)
          "state.json"
          (Json.obj [("a", Json.num (-3)),
                     ("b", Json.arr [Json.str "x", Json.bool true, Json.null])]))
        "state.json" Json.null
      = Json.obj [("a", Json.num (-3)),
                  ("b", Json.arr [Json.str "x", Json.bool true, Json.null])]
    ∧ atomic_read_json
        (fun p : String => if p = "bad.json" then some "not json" else none)
        "missing.json" Json.null = Json.null
    ∧ atomic_read_json
        (fun p : String => if p = "bad.json" then some "not json" else none)
        "bad.json" Json.null = Json.null :=
  c9_atomic_json_round_trip
    (fun p : String => if p = "bad.json" then some "not json" else none)
    "state.json" "missing.json" "bad.json"
    (Json.obj [("a", Json.num (-3)),
               ("b", Json.arr [Json.str "x", Json.bool true, Json.null])])
    Json.null "not json" rfl rfl rfl
